import Mathlib

/-!
# The x16 machine and its assembler

A shallow embedding of `bits.c`, `control.c` and `xas.c`.

A `uint16_t` is a natural number below `2 ^ 16`; every place where C converts a
wider value to `uint16_t` (a return, an assignment, an argument) is an explicit
`% 65536`. An `int` is an `Int`.
-/

namespace X16

/-! ## bits.c -/

/-- The nth bit of a word: `(number >> n) & 1`. -/
def getbit (number : Nat) (n : Nat) : Nat :=
  ((number >>> n) &&& 1) % 65536

/-- The field of `wide` bits starting at bit `n`: `(number >> n) & ((1 << wide) - 1)`. -/
def getbits (number : Nat) (n : Nat) (wide : Nat) : Nat :=
  ((number >>> n) &&& ((1 <<< wide) - 1)) % 65536

/-- Sign extension as written in bits.c: when `x >> (bit_count - 1)` is non-zero the
word is or-ed with `0xFFFF << bit_count` and stored back into a `uint16_t`. Every call has
`bit_count` at least 1 (in C a shift by -1 is undefined). -/
def sign_extend (x : Nat) (bit_count : Nat) : Nat :=
  if x >>> (bit_count - 1) ≠ 0 then (x ||| (0xFFFF <<< bit_count)) % 65536 else x

/-- Bit 15 is clear. -/
def is_positive (number : Nat) : Bool :=
  getbit number 15 == 0

/-- Bit 15 is set. -/
def is_negative (number : Nat) : Bool :=
  getbit number 15 == 1

/-! ## x16.h and instruction.h: the declarations control.c uses -/

/-- Modelled from the spec: x16.h is not under src/. Identifier (`reg_t`) of general
register R0; the eight general registers are followed by the two special registers PC and
COND (§3). -/
def R_R0 : Nat := 0

/-- Modelled from the spec: x16.h is not under src/. Identifier of general register R1. -/
def R_R1 : Nat := 1

/-- Modelled from the spec: x16.h is not under src/. Identifier of general register R2. -/
def R_R2 : Nat := 2

/-- Modelled from the spec: x16.h is not under src/. Identifier of general register R3. -/
def R_R3 : Nat := 3

/-- Modelled from the spec: x16.h is not under src/. Identifier of general register R4. -/
def R_R4 : Nat := 4

/-- Modelled from the spec: x16.h is not under src/. Identifier of general register R5. -/
def R_R5 : Nat := 5

/-- Modelled from the spec: x16.h is not under src/. Identifier of general register R6. -/
def R_R6 : Nat := 6

/-- Modelled from the spec: x16.h is not under src/. Identifier of general register R7, the link register. -/
def R_R7 : Nat := 7

/-- Modelled from the spec: x16.h is not under src/. Identifier of the program counter. -/
def R_PC : Nat := 8

/-- Modelled from the spec: x16.h is not under src/. Identifier of the condition-flag register. -/
def R_COND : Nat := 9

/-- Modelled from the spec: x16.h is not under src/. The POSITIVE flag. The three flags
are one bit each (§3, §4.3); the branch mask taken from bits 9-11 of an instruction is
and-ed with COND, so P is bit 0, Z is bit 1 and N is bit 2. -/
def FL_POS : Nat := 1

/-- Modelled from the spec: x16.h is not under src/. The ZERO flag. -/
def FL_ZRO : Nat := 2

/-- Modelled from the spec: x16.h is not under src/. The NEGATIVE flag. -/
def FL_NEG : Nat := 4

/-- Modelled from the spec: instruction.h is not under src/. Opcode of BRANCH. The 4-bit
opcode field has sixteen values (§3): fourteen legal opcodes and the two reserved ones,
OP_RTI and OP_RES. -/
def OP_BR : Nat := 0

/-- Modelled from the spec: instruction.h is not under src/. Opcode of ADD. -/
def OP_ADD : Nat := 1

/-- Modelled from the spec: instruction.h is not under src/. Opcode of LOAD. -/
def OP_LD : Nat := 2

/-- Modelled from the spec: instruction.h is not under src/. Opcode of STORE. -/
def OP_ST : Nat := 3

/-- Modelled from the spec: instruction.h is not under src/. Opcode of JUMP-TO-SUBROUTINE. -/
def OP_JSR : Nat := 4

/-- Modelled from the spec: instruction.h is not under src/. Opcode of AND. -/
def OP_AND : Nat := 5

/-- Modelled from the spec: instruction.h is not under src/. Opcode of LOAD-BASE-OFFSET. -/
def OP_LDR : Nat := 6

/-- Modelled from the spec: instruction.h is not under src/. Opcode of STORE-BASE-OFFSET. -/
def OP_STR : Nat := 7

/-- Modelled from the spec: instruction.h is not under src/. A reserved opcode. -/
def OP_RTI : Nat := 8

/-- Modelled from the spec: instruction.h is not under src/. Opcode of NOT. -/
def OP_NOT : Nat := 9

/-- Modelled from the spec: instruction.h is not under src/. Opcode of LOAD-INDIRECT. -/
def OP_LDI : Nat := 10

/-- Modelled from the spec: instruction.h is not under src/. Opcode of STORE-INDIRECT. -/
def OP_STI : Nat := 11

/-- Modelled from the spec: instruction.h is not under src/. Opcode of JUMP. -/
def OP_JMP : Nat := 12

/-- Modelled from the spec: instruction.h is not under src/. A reserved opcode. -/
def OP_RES : Nat := 13

/-- Modelled from the spec: instruction.h is not under src/. Opcode of LOAD-EFFECTIVE-ADDRESS. -/
def OP_LEA : Nat := 14

/-- Modelled from the spec: instruction.h is not under src/. Opcode of SYSTEM-CALL;
xas.c builds every system-call word as `0xF000 | vector`. -/
def OP_TRAP : Nat := 15

/-- Modelled from the spec: instruction.h is not under src/. The opcode of an
instruction word is its top 4 bits, bits 12-15 (§4.2). -/
def getopcode (instruction : Nat) : Nat :=
  getbits instruction 12 4

/-- Modelled from the spec: x16.h is not under src/. The machine is a register file
(indexed by `reg_t`) and a memory of words indexed by a 16-bit address (§3). -/
structure x16_t where
  reg : Nat → Nat
  memory : Nat → Nat

/-- Modelled from the spec: x16.c is not under src/. Register read, `get(register) -> word`
(§6); the value returned is a `uint16_t`. -/
def x16_reg (machine : x16_t) (r : Nat) : Nat :=
  machine.reg r % 65536

/-- Modelled from the spec: x16.c is not under src/. Register write, `set(register, word)`
(§6); the value parameter is a `uint16_t`. -/
def x16_set (machine : x16_t) (r : Nat) (value : Nat) : x16_t :=
  { machine with reg := fun i => if i = r then value % 65536 else machine.reg i }

/-- Modelled from the spec: x16.c is not under src/. The program counter is the
special register PC (§3). -/
def x16_pc (machine : x16_t) : Nat :=
  x16_reg machine R_PC

/-- Modelled from the spec: x16.c is not under src/. Memory read, `read(address) -> word`
(§6); the address parameter and the value returned are `uint16_t`. -/
def x16_memread (machine : x16_t) (addr : Nat) : Nat :=
  machine.memory (addr % 65536) % 65536

/-- Modelled from the spec: x16.c is not under src/. Memory write, `write(address, word)`
(§6); both parameters are `uint16_t`. -/
def x16_memwrite (machine : x16_t) (addr : Nat) (value : Nat) : x16_t :=
  { machine with memory := fun i => if i = addr % 65536 then value % 65536 else machine.memory i }

/-! ## control.c -/

/-- Update condition code based on the value now held by register `reg`. -/
def update_cond (machine : x16_t) (reg : Nat) : x16_t :=
  let result := x16_reg machine reg
  if result = 0 then
    x16_set machine R_COND FL_ZRO
  else if is_negative result then
    x16_set machine R_COND FL_NEG
  else
    x16_set machine R_COND FL_POS

/-- Execute a single instruction. The result is `some (status, machine)` when the C
function returns `status`, and `none` when it calls `abort()`. The system-call handler
`trap` (trap.c, not under src/) is a parameter: it receives the machine and the
instruction word and gives back its status and the machine it leaves. Logging is left out. -/
def execute_instruction (trap : x16_t → Nat → Int × x16_t) (machine : x16_t) :
    Option (Int × x16_t) :=
  -- Fetch the instruction and advance the program counter
  let pc := x16_pc machine
  let instruction := x16_memread machine pc
  let machine := x16_set machine R_PC (pc + 1)
  -- Decode the instruction
  let opcode := getopcode instruction
  if opcode = OP_ADD then
    let dstReg := getbits instruction 9 3
    let srcReg1 := getbits instruction 6 3
    let immediateFlag : Bool := getbit instruction 5 != 0
    let machine :=
      if immediateFlag == false then
        let srcReg2 := getbits instruction 0 3
        let value1 := x16_reg machine srcReg1
        let value2 := x16_reg machine srcReg2
        let result := (value1 + value2) % 65536
        x16_set machine dstReg result
      else
        let imm5 := sign_extend (getbits instruction 0 5) 5
        let value1 := x16_reg machine srcReg1
        let result := (value1 + imm5) % 65536
        x16_set machine dstReg result
    some (0, update_cond machine dstReg)
  else if opcode = OP_AND then
    let dstReg := getbits instruction 9 3
    let srcReg1 := getbits instruction 6 3
    let immediateFlag : Bool := getbit instruction 5 != 0
    let machine :=
      if immediateFlag == false then
        let srcReg2 := getbits instruction 0 3
        let value1 := x16_reg machine srcReg1
        let value2 := x16_reg machine srcReg2
        let result := (value1 &&& value2) % 65536
        x16_set machine dstReg result
      else
        let imm5 := sign_extend (getbits instruction 0 5) 5
        let value1 := x16_reg machine srcReg1
        let result := (value1 &&& imm5) % 65536
        x16_set machine dstReg result
    some (0, update_cond machine dstReg)
  else if opcode = OP_NOT then
    let dstReg := getbits instruction 9 3
    let srcReg1 := getbits instruction 6 3
    let value1 := x16_reg machine srcReg1
    let result := (value1 ^^^ 0xFFFF) % 65536
    let machine := x16_set machine dstReg result
    some (0, update_cond machine dstReg)
  else if opcode = OP_BR then
    let condFlags := getbits instruction 9 3
    let currentCond := x16_reg machine R_COND
    let pcOffset := sign_extend (getbits instruction 0 9) 9
    let target := (x16_pc machine + pcOffset) % 65536
    let machine :=
      if condFlags = 0 ∨ condFlags &&& currentCond ≠ 0 then x16_set machine R_PC target
      else machine
    some (0, machine)
  else if opcode = OP_JMP then
    let baseReg := getbits instruction 6 3
    some (0, x16_set machine R_PC (x16_reg machine baseReg))
  else if opcode = OP_JSR then
    let longFlag := getbit instruction 11
    let pc := x16_pc machine
    let machine := x16_set machine R_R7 pc
    let machine :=
      if longFlag ≠ 0 then
        let longPcOffset := sign_extend (getbits instruction 0 11) 11
        x16_set machine R_PC (pc + longPcOffset)
      else
        let baseReg := getbits instruction 6 3
        x16_set machine R_PC (x16_reg machine baseReg)
    some (0, machine)
  else if opcode = OP_LD then
    let dstReg := getbits instruction 9 3
    let pcOffset := sign_extend (getbits instruction 0 9) 9
    let address := (x16_pc machine + pcOffset) % 65536
    let value := x16_memread machine address
    let machine := x16_set machine dstReg value
    some (0, update_cond machine dstReg)
  else if opcode = OP_LDI then
    let dstReg := getbits instruction 9 3
    let pcOffset := sign_extend (getbits instruction 0 9) 9
    let address := x16_memread machine (x16_pc machine + pcOffset)
    let value := x16_memread machine address
    let machine := x16_set machine dstReg value
    some (0, update_cond machine dstReg)
  else if opcode = OP_LDR then
    let dstReg := getbits instruction 9 3
    let baseReg := getbits instruction 6 3
    let offset := sign_extend (getbits instruction 0 6) 6
    let address := (x16_reg machine baseReg + offset) % 65536
    let value := x16_memread machine address
    let machine := x16_set machine dstReg value
    some (0, update_cond machine dstReg)
  else if opcode = OP_LEA then
    let dstReg := getbits instruction 9 3
    let pcOffset := sign_extend (getbits instruction 0 9) 9
    let machine := x16_set machine dstReg (x16_pc machine + pcOffset)
    some (0, update_cond machine dstReg)
  else if opcode = OP_ST then
    let srcReg := getbits instruction 9 3
    let pcOffset := sign_extend (getbits instruction 0 9) 9
    let address := (x16_pc machine + pcOffset) % 65536
    some (0, x16_memwrite machine address (x16_reg machine srcReg))
  else if opcode = OP_STI then
    let srcReg := getbits instruction 9 3
    let pcOffset := sign_extend (getbits instruction 0 9) 9
    let address := x16_memread machine (x16_pc machine + pcOffset)
    some (0, x16_memwrite machine address (x16_reg machine srcReg))
  else if opcode = OP_STR then
    let srcReg := getbits instruction 9 3
    let baseReg := getbits instruction 6 3
    let offset := sign_extend (getbits instruction 0 6) 6
    let address := (x16_reg machine baseReg + offset) % 65536
    some (0, x16_memwrite machine address (x16_reg machine srcReg))
  else if opcode = OP_TRAP then
    -- Execute the trap
    some (trap machine instruction)
  else
    -- OP_RES, OP_RTI, default: bad codes, never used
    none

/-! ## xas.c -/

/-- The two bytes `writeBigEndian` puts on the output file: high byte, then low byte. -/
def writeBigEndian (value : Nat) : List Nat :=
  [(value >>> 8) &&& 0xFF, value &&& 0xFF]

/-- One entry of the global `symbols` array. A C string is the list of its characters
up to the terminating NUL. The fixed capacities of the C arrays (50 characters for a
label, 10000 entries, 10000 characters for a line) are not modelled: the embedding
describes runs that stay within them. -/
structure Symbol where
  label : List Char
  address : Int
deriving DecidableEq

/-- The `isspace` of <ctype.h> in the C locale. -/
def isspace (c : Char) : Bool :=
  c == ' ' || c == '\t' || c == '\n' || c == '\x0b' || c == '\x0c' || c == '\r'

/-- Normalise one line in place: cut at the first CR or LF, skip leading white space,
give the empty string when nothing is left, otherwise cut trailing white space (never
moving before the first character kept), and finally cut at the first `#`. -/
def process_line (line : List Char) : List Char :=
  let cut := line.takeWhile (fun c => c != '\r' && c != '\n')
  match cut.dropWhile isspace with
  | [] => []
  | c :: rest =>
    let trimmed := c :: (rest.reverse.dropWhile isspace).reverse
    trimmed.takeWhile (fun c => c != '#')

/-- Linear search of the symbol table from its first entry; `-1` when no label matches. -/
def findLabelAddress (symbols : List Symbol) (label : List Char) : Int :=
  match symbols with
  | [] => -1
  | s :: rest => if s.label = label then s.address else findLabelAddress rest label

/-- The offset of a label from the instruction after the current one; `/` is C's
integer division, which truncates toward zero. -/
def calculate_offset (currentAddress : Int) (labelAddress : Int) : Int :=
  (labelAddress - (currentAddress + 2)).tdiv 2

/-- The state of the first loop of `main`: the symbols recorded so far (in insertion
order) and `currentAddress`. -/
structure Pass1 where
  symbols : List Symbol
  currentAddress : Int

/-- One iteration of the first loop of `main` on the line `fgets` returned. -/
def pass1_step (st : Pass1) (raw : List Char) : Pass1 :=
  let line := process_line raw
  if ':' ∈ line then
    { symbols := st.symbols ++ [⟨line.takeWhile (fun c => c != ':'), st.currentAddress⟩],
      currentAddress := st.currentAddress }
  else if line.length > 1 then
    { st with currentAddress := st.currentAddress + 2 }
  else
    st

/-- Pass 1 of `main`: the first loop run over the lines of the source file. -/
def pass1 (lines : List (List Char)) : Pass1 :=
  lines.foldl pass1_step ⟨[], 0x3000⟩

/-- The state of the second loop of `main` that does not depend on the words
`parse_instruction` returns: `currentAddress`, and the number of instruction words
written to the output after the origin word. -/
structure Pass2 where
  currentAddress : Int
  written : Nat
deriving DecidableEq

/-- One iteration of the second loop of `main`: a line that is longer than one character
and has no `:` is handed to `parse_instruction` with `currentAddress`, one word is written
and the address advances by 2; any other line is skipped. -/
def pass2_step (st : Pass2) (raw : List Char) : Pass2 :=
  let line := process_line raw
  if line.length > 1 ∧ ':' ∉ line then
    { currentAddress := st.currentAddress + 2, written := st.written + 1 }
  else
    st

/-- Pass 2 of `main` over the lines read so far, when no call of `parse_instruction`
has ended the process. -/
def pass2 (lines : List (List Char)) : Pass2 :=
  lines.foldl pass2_step ⟨0x3000, 0⟩

/-! ## xas.c: scanning and parse_instruction -/

/-- One directive of a `scanf` format: an ordinary character, white space, `%s`, `%d`,
or a scanset `%[...]`. -/
inductive Directive
  | lit (c : Char)
  | blank
  | str
  | int
  | set (cs : List Char)

/-- A value `sscanf` stores through one of its pointer arguments. -/
inductive Scanned
  | str (s : List Char)
  | int (n : Int)
deriving DecidableEq

/-- The `isdigit` of <ctype.h>. -/
def isdigit (c : Char) : Bool :=
  '0'.toNat ≤ c.toNat && c.toNat ≤ '9'.toNat

/-- The value of a run of decimal digits. -/
def decimal (digits : List Char) : Nat :=
  digits.foldl (fun acc c => 10 * acc + (c.toNat - '0'.toNat)) 0

/-- A decimal integer as `%d`, `strtol` and `atoi` read it: white space is skipped, a sign
may follow, then at least one digit is needed. Gives the value and the rest of the input.
Values outside the range of `int` are not modelled. -/
def scan_int (input : List Char) : Option (Int × List Char) :=
  let s := input.dropWhile isspace
  let negative := s.head? == some '-'
  let t := if s.head? == some '-' || s.head? == some '+' then s.drop 1 else s
  let digits := t.takeWhile isdigit
  if digits = [] then none
  else some (if negative then -(decimal digits : Int) else (decimal digits : Int),
    t.dropWhile isdigit)

/-- The `atoi` of <stdlib.h>: 0 when no number can be read. -/
def atoi (s : List Char) : Int :=
  match scan_int s with
  | some (n, _) => n
  | none => 0

/-- The values `sscanf` assigns, in order; their number is what `sscanf` returns when at
least one conversion succeeded. A return of 0 and a return of EOF both give the empty list:
xas.c only compares the result with 1, 2 or 3. An ordinary character must equal the next
input character; white space in the format skips any white space; `%s` skips white space
and takes the longest run of non-white-space characters; `%[...]` takes the longest
non-empty run of characters of the set, skipping nothing. The sizes of the receiving
arrays are not modelled. -/
def sscanf : List Char → List Directive → List Scanned
  | _, [] => []
  | input, Directive.lit c :: fmt =>
    match input with
    | d :: rest => if d = c then sscanf rest fmt else []
    | [] => []
  | input, Directive.blank :: fmt => sscanf (input.dropWhile isspace) fmt
  | input, Directive.str :: fmt =>
    let s := input.dropWhile isspace
    let token := s.takeWhile (fun c => !isspace c)
    if token = [] then []
    else Scanned.str token :: sscanf (s.dropWhile (fun c => !isspace c)) fmt
  | input, Directive.int :: fmt =>
    match scan_int input with
    | none => []
    | some (n, rest) => Scanned.int n :: sscanf rest fmt
  | input, Directive.set cs :: fmt =>
    let token := input.takeWhile (fun c => decide (c ∈ cs))
    if token = [] then []
    else Scanned.str token :: sscanf (input.dropWhile (fun c => decide (c ∈ cs))) fmt

/-- The ordinary characters of a format, one directive each. -/
def lits (s : String) : List Directive :=
  s.toList.map Directive.lit

/-- The format `"br%[nzp]"`. -/
def fmt_br : List Directive := lits "br" ++ [Directive.set ['n', 'z', 'p']]

/-- The format `"jmp %s"`. -/
def fmt_jmp : List Directive := lits "jmp" ++ [Directive.blank, Directive.str]

/-- The format `"jsr %s"`. -/
def fmt_jsr : List Directive := lits "jsr" ++ [Directive.blank, Directive.str]

/-- The format `"jssr %s"`. -/
def fmt_jssr : List Directive := lits "jssr" ++ [Directive.blank, Directive.str]

/-- The format `"ld %s %s"`. -/
def fmt_ld : List Directive :=
  lits "ld" ++ [Directive.blank, Directive.str, Directive.blank, Directive.str]

/-- The format `"ldi %s %s"`. -/
def fmt_ldi : List Directive :=
  lits "ldi" ++ [Directive.blank, Directive.str, Directive.blank, Directive.str]

/-- The format `"ldr %s %s #%d"`. -/
def fmt_ldr : List Directive :=
  lits "ldr" ++ [Directive.blank, Directive.str, Directive.blank, Directive.str,
    Directive.blank, Directive.lit '#', Directive.int]

/-- The format `"lea %s %s"`. -/
def fmt_lea : List Directive :=
  lits "lea" ++ [Directive.blank, Directive.str, Directive.blank, Directive.str]

/-- The format `"st %s %s"`. -/
def fmt_st : List Directive :=
  lits "st" ++ [Directive.blank, Directive.str, Directive.blank, Directive.str]

/-- The format `"sti %s %s"`. -/
def fmt_sti : List Directive :=
  lits "sti" ++ [Directive.blank, Directive.str, Directive.blank, Directive.str]

/-- The format `"str %s %s #%d"`. -/
def fmt_str : List Directive :=
  lits "str" ++ [Directive.blank, Directive.str, Directive.blank, Directive.str,
    Directive.blank, Directive.lit '#', Directive.int]

/-- The format `"add %s %s %s"`. -/
def fmt_add : List Directive :=
  lits "add" ++ [Directive.blank, Directive.str, Directive.blank, Directive.str,
    Directive.blank, Directive.str]

/-- The format `"and %s %s %s"`. -/
def fmt_and : List Directive :=
  lits "and" ++ [Directive.blank, Directive.str, Directive.blank, Directive.str,
    Directive.blank, Directive.str]

/-- The format `"not %s %s"`. -/
def fmt_not : List Directive :=
  lits "not" ++ [Directive.blank, Directive.str, Directive.blank, Directive.str]

/-- The format `"val $%d"`. -/
def fmt_val : List Directive :=
  lits "val" ++ [Directive.blank, Directive.lit '$', Directive.int]

/-- The encoders of instruction.c and the trap vectors of trap.h, none of which is under
src/: they are parameters of the assembler. A register argument is the integer
`parse_register` returns. -/
structure Encoders where
  emit_br : Bool → Bool → Bool → Int → Nat
  emit_jmp : Int → Nat
  emit_jsr : Int → Nat
  emit_jsrr : Int → Nat
  emit_ld : Int → Int → Nat
  emit_ldi : Int → Int → Nat
  emit_ldr : Int → Int → Int → Nat
  emit_lea : Int → Int → Nat
  emit_st : Int → Int → Nat
  emit_sti : Int → Int → Nat
  emit_str : Int → Int → Int → Nat
  emit_add_imm : Int → Int → Int → Nat
  emit_add_reg : Int → Int → Int → Nat
  emit_and_imm : Int → Int → Int → Nat
  emit_and_reg : Int → Int → Int → Nat
  emit_not : Int → Int → Nat
  emit_value : Nat → Nat
  TRAP_GETC : Nat
  TRAP_OUT : Nat
  TRAP_PUTS : Nat
  TRAP_IN : Nat
  TRAP_PUTSP : Nat
  TRAP_HALT : Nat

/-- The register a token names: for a token starting `%r`, `atoi` reads the number after
it, the eight `case`s return R_R0..R_R7 and any other number is returned as it is, cast
to `reg_t`. For any other token the C function ends without a `return`, so its value is
undefined: `none`. -/
def parse_register (reg : List Char) : Option Int :=
  if reg.take 2 = ['%', 'r'] then
    let regNum := atoi (reg.drop 2)
    if regNum = 0 then some (R_R0 : Nat)
    else if regNum = 1 then some (R_R1 : Nat)
    else if regNum = 2 then some (R_R2 : Nat)
    else if regNum = 3 then some (R_R3 : Nat)
    else if regNum = 4 then some (R_R4 : Nat)
    else if regNum = 5 then some (R_R5 : Nat)
    else if regNum = 6 then some (R_R6 : Nat)
    else if regNum = 7 then some (R_R7 : Nat)
    else some regNum
  else none

/-- What a call of `parse_instruction` does: it returns a word, or it ends the process
with `exit(status)`, or its behaviour is undefined in C (it reads an array that was never
written, or uses the value of a `parse_register` call that returned nothing). -/
inductive Parsed
  | word (w : Nat)
  | exit (status : Int)
  | undefined
deriving DecidableEq

/-- The `uint16_t` stored in `parsedInstruction` and returned, when every register
argument had a value. -/
def emitted (w : Option Nat) : Parsed :=
  match w with
  | some w => Parsed.word (w % 65536)
  | none => Parsed.undefined

/-- The branch of `parse_instruction` for a line that starts with `br`. -/
def parse_br (E : Encoders) (symbols : List Symbol) (line : List Char)
    (currentAddress : Int) : Parsed :=
  match sscanf line fmt_br with
  | [Scanned.str conditions] =>
    let neg := decide ('n' ∈ conditions)
    let zero := decide ('z' ∈ conditions)
    let pos := decide ('p' ∈ conditions)
    let afterConditions := line.drop (2 + conditions.length)
    match sscanf afterConditions [Directive.int] with
    | [Scanned.int offsetValue] => emitted (some (E.emit_br neg zero pos offsetValue))
    | _ =>
      match sscanf afterConditions [Directive.str] with
      | [Scanned.str label] =>
        let labelAddress := findLabelAddress symbols label
        if labelAddress = -1 then Parsed.exit 2
        else emitted (some (E.emit_br neg zero pos (calculate_offset currentAddress labelAddress)))
      -- `label` was never written
      | _ => Parsed.undefined
  -- `conditions` was never written and `strlen(conditions)` reads it
  | _ => Parsed.undefined

/-- The third operand of `add` and `and`: an immediate after `$`, or a register. -/
def parse_arith (emit_imm emit_reg : Int → Int → Int → Nat) (reg1 reg2 reg3 : List Char) :
    Parsed :=
  if reg3.head? = some '$' then
    let immediate := atoi (reg3.drop 1)
    emitted (do
      let r1 ← parse_register reg1
      let r2 ← parse_register reg2
      pure (emit_imm r1 r2 immediate))
  else
    emitted (do
      let r1 ← parse_register reg1
      let r2 ← parse_register reg2
      let r3 ← parse_register reg3
      pure (emit_reg r1 r2 r3))

/-- A call `sscanf(line, fmt, a) == 1` with a `%s` conversion: the string stored. -/
def scan_s (line : List Char) (fmt : List Directive) : Option (List Char) :=
  match sscanf line fmt with
  | [Scanned.str a] => some a
  | _ => none

/-- A call `sscanf(line, fmt, a, b) == 2` with two `%s` conversions. -/
def scan_ss (line : List Char) (fmt : List Directive) : Option (List Char × List Char) :=
  match sscanf line fmt with
  | [Scanned.str a, Scanned.str b] => some (a, b)
  | _ => none

/-- A call `sscanf(line, fmt, a, b, c) == 3` with three `%s` conversions. -/
def scan_sss (line : List Char) (fmt : List Directive) :
    Option (List Char × List Char × List Char) :=
  match sscanf line fmt with
  | [Scanned.str a, Scanned.str b, Scanned.str c] => some (a, b, c)
  | _ => none

/-- A call `sscanf(line, fmt, a, b, &n) == 3` with two `%s` conversions and a `%d`. -/
def scan_ssd (line : List Char) (fmt : List Directive) :
    Option (List Char × List Char × Int) :=
  match sscanf line fmt with
  | [Scanned.str a, Scanned.str b, Scanned.int n] => some (a, b, n)
  | _ => none

/-- A call `sscanf(line, fmt, &n) == 1` with a `%d` conversion. -/
def scan_d (line : List Char) (fmt : List Directive) : Option Int :=
  match sscanf line fmt with
  | [Scanned.int n] => some n
  | _ => none

/-- Assemble one normalised line at `currentAddress`, with the symbol table pass 1 built.
The tests are tried in the order of the `else if` chain of xas.c. -/
def parse_instruction (E : Encoders) (symbols : List Symbol) (line : List Char)
    (currentAddress : Int) : Parsed :=
  if line.length = 0 then Parsed.word 2
  else if line.take 2 = ['b', 'r'] then parse_br E symbols line currentAddress
  else if let some reg1 := scan_s line fmt_jmp then
    emitted ((parse_register reg1).map E.emit_jmp)
  else if let some label := scan_s line fmt_jsr then
    emitted (some (E.emit_jsr (calculate_offset currentAddress (findLabelAddress symbols label))))
  else if let some reg1 := scan_s line fmt_jssr then
    emitted ((parse_register reg1).map E.emit_jsrr)
  else if let some (reg1, label) := scan_ss line fmt_ld then
    emitted ((parse_register reg1).map fun r =>
      E.emit_ld r (calculate_offset currentAddress (findLabelAddress symbols label)))
  else if let some (reg1, label) := scan_ss line fmt_ldi then
    emitted ((parse_register reg1).map fun r =>
      E.emit_ldi r (calculate_offset currentAddress (findLabelAddress symbols label)))
  else if let some (reg1, reg2, immediate) := scan_ssd line fmt_ldr then
    emitted (do
      let r1 ← parse_register reg1
      let r2 ← parse_register reg2
      pure (E.emit_ldr r1 r2 immediate))
  else if let some (reg1, label) := scan_ss line fmt_lea then
    emitted ((parse_register reg1).map fun r =>
      E.emit_lea r (calculate_offset currentAddress (findLabelAddress symbols label)))
  else if let some (reg1, label) := scan_ss line fmt_st then
    emitted ((parse_register reg1).map fun r =>
      E.emit_st r (calculate_offset currentAddress (findLabelAddress symbols label)))
  else if let some (reg1, label) := scan_ss line fmt_sti then
    emitted ((parse_register reg1).map fun r =>
      E.emit_sti r (calculate_offset currentAddress (findLabelAddress symbols label)))
  else if let some (reg1, reg2, immediate) := scan_ssd line fmt_str then
    emitted (do
      let r1 ← parse_register reg1
      let r2 ← parse_register reg2
      pure (E.emit_str r1 r2 immediate))
  else if let some (reg1, reg2, reg3) := scan_sss line fmt_add then
    parse_arith E.emit_add_imm E.emit_add_reg reg1 reg2 reg3
  else if let some (reg1, reg2, reg3) := scan_sss line fmt_and then
    parse_arith E.emit_and_imm E.emit_and_reg reg1 reg2 reg3
  else if let some (reg1, reg2, reg3) := scan_sss line fmt_add then
    parse_arith E.emit_add_imm E.emit_add_reg reg1 reg2 reg3
  else if let some (reg1, reg2) := scan_ss line fmt_not then
    emitted (do
      let r1 ← parse_register reg1
      let r2 ← parse_register reg2
      pure (E.emit_not r1 r2))
  else if let some immediate := scan_d line fmt_val then
    emitted (some (E.emit_value (immediate % 65536).toNat))
  else if line = "getc".toList then emitted (some (0xF000 ||| E.TRAP_GETC))
  else if line = "putc".toList then emitted (some (0xF000 ||| E.TRAP_OUT))
  else if line = "puts".toList then emitted (some (0xF000 ||| E.TRAP_PUTS))
  else if line = "enter".toList then emitted (some (0xF000 ||| E.TRAP_IN))
  else if line = "putsp".toList then emitted (some (0xF000 ||| E.TRAP_PUTSP))
  else if line = "halt".toList then emitted (some (0xF000 ||| E.TRAP_HALT))
  else Parsed.word 2

/-- How a run of the second loop of `main` ends: at the end of the source with the bytes
written to `a.obj`, by `exit(status)` inside `parse_instruction` with the bytes written
until then, or in undefined behaviour. -/
inductive Run
  | done (output : List Nat)
  | exited (status : Int) (output : List Nat)
  | undefined
deriving DecidableEq

/-- The second loop of `main` from a given `currentAddress`, with `output` the bytes
written so far. -/
def pass2_loop (E : Encoders) (symbols : List Symbol) :
    List (List Char) → Int → List Nat → Run
  | [], _, output => Run.done output
  | raw :: rest, currentAddress, output =>
    let line := process_line raw
    if line.length > 1 ∧ ':' ∉ line then
      match parse_instruction E symbols line currentAddress with
      | Parsed.word instruction =>
        pass2_loop E symbols rest (currentAddress + 2) (output ++ writeBigEndian instruction)
      | Parsed.exit status => Run.exited status output
      | Parsed.undefined => Run.undefined
    else
      pass2_loop E symbols rest currentAddress output

/-- The two passes of `main` over the lines of the source file: pass 1 fills the symbol
table, then the origin word and the words of pass 2 are written. -/
def assemble (E : Encoders) (lines : List (List Char)) : Run :=
  pass2_loop E (pass1 lines).symbols lines 0x3000 (writeBigEndian 0x3000)

/-- The normalised lines pass 2 hands to `parse_instruction`, in source order. -/
def instruction_lines (lines : List (List Char)) : List (List Char) :=
  (lines.map process_line).filter (fun line => decide (line.length > 1 ∧ ':' ∉ line))

/-- Encoders for concrete runs, laid out as §4.2 and §4.3 describe the instruction word:
opcode in bits 12-15, destination or source register in bits 9-11, base or first source
register in bits 6-8, immediate flag in bit 5, and the low 5, 6, 9 or 11 bits of an
immediate or offset. The trap vectors are 0x20..0x25. -/
def sample_encoders : Encoders :=
  { emit_br := fun n z p offset =>
      (OP_BR <<< 12) ||| (n.toNat <<< 11) ||| (z.toNat <<< 10) ||| (p.toNat <<< 9) |||
        (offset % 512).toNat
    emit_jmp := fun base => (OP_JMP <<< 12) ||| ((base % 8).toNat <<< 6)
    emit_jsr := fun offset => (OP_JSR <<< 12) ||| (1 <<< 11) ||| (offset % 2048).toNat
    emit_jsrr := fun base => (OP_JSR <<< 12) ||| ((base % 8).toNat <<< 6)
    emit_ld := fun dst offset =>
      (OP_LD <<< 12) ||| ((dst % 8).toNat <<< 9) ||| (offset % 512).toNat
    emit_ldi := fun dst offset =>
      (OP_LDI <<< 12) ||| ((dst % 8).toNat <<< 9) ||| (offset % 512).toNat
    emit_ldr := fun dst base offset =>
      (OP_LDR <<< 12) ||| ((dst % 8).toNat <<< 9) ||| ((base % 8).toNat <<< 6) |||
        (offset % 64).toNat
    emit_lea := fun dst offset =>
      (OP_LEA <<< 12) ||| ((dst % 8).toNat <<< 9) ||| (offset % 512).toNat
    emit_st := fun src offset =>
      (OP_ST <<< 12) ||| ((src % 8).toNat <<< 9) ||| (offset % 512).toNat
    emit_sti := fun src offset =>
      (OP_STI <<< 12) ||| ((src % 8).toNat <<< 9) ||| (offset % 512).toNat
    emit_str := fun src base offset =>
      (OP_STR <<< 12) ||| ((src % 8).toNat <<< 9) ||| ((base % 8).toNat <<< 6) |||
        (offset % 64).toNat
    emit_add_imm := fun dst src imm =>
      (OP_ADD <<< 12) ||| ((dst % 8).toNat <<< 9) ||| ((src % 8).toNat <<< 6) ||| (1 <<< 5) |||
        (imm % 32).toNat
    emit_add_reg := fun dst src1 src2 =>
      (OP_ADD <<< 12) ||| ((dst % 8).toNat <<< 9) ||| ((src1 % 8).toNat <<< 6) |||
        (src2 % 8).toNat
    emit_and_imm := fun dst src imm =>
      (OP_AND <<< 12) ||| ((dst % 8).toNat <<< 9) ||| ((src % 8).toNat <<< 6) ||| (1 <<< 5) |||
        (imm % 32).toNat
    emit_and_reg := fun dst src1 src2 =>
      (OP_AND <<< 12) ||| ((dst % 8).toNat <<< 9) ||| ((src1 % 8).toNat <<< 6) |||
        (src2 % 8).toNat
    emit_not := fun dst src =>
      (OP_NOT <<< 12) ||| ((dst % 8).toNat <<< 9) ||| ((src % 8).toNat <<< 6) ||| 0x3F
    emit_value := fun value => value
    TRAP_GETC := 0x20
    TRAP_OUT := 0x21
    TRAP_PUTS := 0x22
    TRAP_IN := 0x23
    TRAP_PUTSP := 0x24
    TRAP_HALT := 0x25 }

/-! ## The specification's wording of sign extension -/

/-- Two's-complement widening of the low `k` bits of a word to 16 bits, as the
specification words it (§4.1): the low `k` bits are read as a signed quantity. -/
def sign_extend_spec (value : Nat) (k : Nat) : Nat :=
  let low := value % 2 ^ k
  if 2 ^ (k - 1) ≤ low then low + 2 ^ 16 - 2 ^ k else low

/-! ## Concrete machines and programs -/

/-- A system-call handler for concrete runs: it leaves the machine as it is and reports -1. -/
def sample_trap : x16_t → Nat → Int × x16_t :=
  fun machine _ => (-1, machine)

/-- A machine for concrete runs: PC is `pc`, COND is ZERO, general register `Ri` holds
`2 * i + 1`, the cell at `pc` holds `word` and every other cell holds 0. -/
def sample_machine (pc : Nat) (word : Nat) : x16_t :=
  { reg := fun r => if r = R_PC then pc else if r = R_COND then FL_ZRO else 2 * r + 1,
    memory := fun a => if a = pc then word else 0 }

/-- A source file whose label `x` follows one instruction line. -/
def label_after_one : List (List Char) :=
  ["halt\n".toList, "x:\n".toList, "brnzp x\n".toList]

/-- A source file whose label `loop` is at the origin (§8, scenario 3). -/
def label_at_origin : List (List Char) :=
  ["loop:\n".toList, "add %r0 %r0 $1\n".toList, "brnzp loop\n".toList]

/-! ## Bit-field lemmas -/

theorem shiftRight_ne_zero_iff (x n : Nat) : x >>> n ≠ 0 ↔ 2 ^ n ≤ x := by
  rw [Nat.shiftRight_eq_div_pow]
  have h : 0 < 2 ^ n := Nat.two_pow_pos _
  constructor
  · intro hne
    by_contra hlt
    exact hne (Nat.div_eq_of_lt (by omega))
  · intro hle hz
    have := Nat.div_pos hle h
    omega

theorem sign_extend_small (x k : Nat) (h : x < 2 ^ (k - 1)) : sign_extend x k = x := by
  unfold sign_extend
  rw [if_neg]
  rw [shiftRight_ne_zero_iff]
  omega

theorem sign_extend_large (x k : Nat) (h : 2 ^ (k - 1) ≤ x) :
    sign_extend x k = (x ||| (0xFFFF <<< k)) % 65536 := by
  unfold sign_extend
  rw [if_pos]
  rw [shiftRight_ne_zero_iff]
  exact h

theorem two_pow_le_of_testBit (x i : Nat) (h : x.testBit i = true) : 2 ^ i ≤ x := by
  by_contra hlt
  have := Nat.testBit_lt_two_pow (Nat.lt_of_not_le hlt)
  simp [this] at h

theorem or_mask_mod (x k : Nat) (hk : k ≤ 16) (hx : x < 2 ^ k) :
    (x ||| (0xFFFF <<< k)) % 65536 = x + 65536 - 2 ^ k := by
  rw [Nat.lor_comm, Nat.shiftLeft_eq, Nat.mul_comm, ← Nat.mul_add_lt_is_or hx, Nat.mul_comm]
  have hpos : 0 < 2 ^ k := Nat.two_pow_pos _
  have hle : 2 ^ k ≤ 65536 := by
    have := Nat.pow_le_pow_right (show 0 < 2 by decide) hk
    simpa using this
  have h2 : (2 ^ k - 1) * 65536 + 65536 = 2 ^ k * 65536 := by
    have : 2 ^ k - 1 + 1 = 2 ^ k := by omega
    calc (2 ^ k - 1) * 65536 + 65536 = (2 ^ k - 1 + 1) * 65536 := by ring
      _ = 2 ^ k * 65536 := by rw [this]
  have e : 65535 * 2 ^ k + x = (2 ^ k - 1) * 65536 + (x + 65536 - 2 ^ k) := by
    have h3 : 2 ^ k * 65536 = 65535 * 2 ^ k + 2 ^ k := by ring
    omega
  rw [e, Nat.mul_add_mod_of_lt]
  omega


theorem getbit_eq (x n : Nat) : getbit x n = x / 2 ^ n % 2 := by
  unfold getbit
  rw [Nat.and_one_is_mod, Nat.shiftRight_eq_div_pow]
  omega

theorem getbit_eq_testBit (x n : Nat) : getbit x n = (x.testBit n).toNat := by
  rw [getbit_eq, Nat.testBit_to_div_mod]
  rcases Nat.mod_two_eq_zero_or_one (x / 2 ^ n) with h | h <;> simp [h]

theorem pow_pred_double (k : Nat) (hk : 1 ≤ k) : 2 ^ k = 2 * 2 ^ (k - 1) := by
  obtain ⟨j, rfl⟩ : ∃ j, k = j + 1 := ⟨k - 1, by omega⟩
  simp [Nat.pow_succ, Nat.mul_comm]

theorem getbit_top_one (x k : Nat) (hb : getbit x (k - 1) = 1) :
    2 ^ (k - 1) ≤ x := by
  rw [getbit_eq] at hb
  by_contra hlt
  rw [Nat.div_eq_of_lt (by omega)] at hb
  simp at hb

theorem getbit_top_zero (x k : Nat) (hk : 1 ≤ k) (hx : x < 2 ^ k) (hb : getbit x (k - 1) = 0) :
    x < 2 ^ (k - 1) := by
  rw [getbit_eq] at hb
  have hpos : 0 < 2 ^ (k - 1) := Nat.two_pow_pos _
  have h2 : x / 2 ^ (k - 1) < 2 := by
    have hd := pow_pred_double k hk
    rw [Nat.div_lt_iff_lt_mul hpos]
    omega
  have h0 : x / 2 ^ (k - 1) = 0 := by
    generalize x / 2 ^ (k - 1) = q at hb h2
    omega
  exact (Nat.div_eq_zero_iff hpos).1 h0

theorem sign_extend_of_field (x k : Nat) (hk : k ≤ 16) (hx : x < 2 ^ k) :
    sign_extend x k = if 2 ^ (k - 1) ≤ x then x + 65536 - 2 ^ k else x := by
  split
  · next h => rw [sign_extend_large x k h, or_mask_mod x k hk hx]
  · next h => exact sign_extend_small x k (by omega)

theorem testBit_or_mask (x k i : Nat) :
    ((x ||| (0xFFFF <<< k)) % 65536).testBit i =
      (decide (i < 16) && (x.testBit i || (decide (k ≤ i) && decide (i - k < 16)))) := by
  have h1 : (65536 : Nat) = 2 ^ 16 := by norm_num
  have h2 : (0xFFFF : Nat) = 2 ^ 16 - 1 := by norm_num
  rw [h1, h2, Nat.testBit_mod_two_pow, Nat.testBit_or, Nat.testBit_shiftLeft,
    Nat.testBit_two_pow_sub_one]

theorem getbit_sign_extend_low (x k i : Nat) (hk : k ≤ 16) (hi : i < k) :
    getbit (sign_extend x k) i = getbit x i := by
  by_cases h : 2 ^ (k - 1) ≤ x
  · rw [sign_extend_large x k h, getbit_eq_testBit, getbit_eq_testBit, testBit_or_mask]
    have h1 : ¬ k ≤ i := by omega
    have h2 : i < 16 := by omega
    simp [h1, h2]
  · rw [sign_extend_small x k (by omega)]

theorem getbit_sign_extend_high (x k i : Nat) (hk1 : 1 ≤ k) (hki : k ≤ i) (hi : i < 16) :
    getbit (sign_extend x k) i = if x >>> (k - 1) = 0 then 0 else 1 := by
  by_cases h : 2 ^ (k - 1) ≤ x
  · have hne : x >>> (k - 1) ≠ 0 := (shiftRight_ne_zero_iff x (k - 1)).2 h
    rw [if_neg hne, sign_extend_large x k h, getbit_eq_testBit, testBit_or_mask]
    have h3 : i - k < 16 := by omega
    simp [hki, hi, h3]
  · have hz : x >>> (k - 1) = 0 := by
      by_contra hne
      exact h ((shiftRight_ne_zero_iff x (k - 1)).1 hne)
    rw [if_pos hz, sign_extend_small x k (by omega), getbit_eq_testBit]
    have hlt : x < 2 ^ i :=
      Nat.lt_of_lt_of_le (by omega) (Nat.pow_le_pow_right (show 0 < 2 by decide)
        (show k - 1 ≤ i by omega))
    simp [Nat.testBit_lt_two_pow hlt]


/-! ## Machine-state lemmas -/

theorem getbits_lt (w n k : Nat) : getbits w n k < 2 ^ k := by
  unfold getbits
  have h1 : (w >>> n) &&& ((1 <<< k) - 1) ≤ (1 <<< k) - 1 := Nat.and_le_right
  have h2 : 1 <<< k = 2 ^ k := Nat.one_shiftLeft k
  have h3 : 0 < 2 ^ k := Nat.two_pow_pos k
  have h4 : (w >>> n) &&& ((1 <<< k) - 1) < 2 ^ k := by omega
  exact Nat.lt_of_le_of_lt (Nat.mod_le _ _) h4

theorem x16_reg_lt (m : x16_t) (r : Nat) : x16_reg m r < 65536 :=
  Nat.mod_lt _ (by decide)

theorem x16_memread_lt (m : x16_t) (a : Nat) : x16_memread m a < 65536 :=
  Nat.mod_lt _ (by decide)

@[simp] theorem x16_reg_set (m : x16_t) (r v r' : Nat) :
    x16_reg (x16_set m r v) r' = if r' = r then v % 65536 else x16_reg m r' := by
  unfold x16_reg x16_set
  by_cases h : r' = r <;> simp [h]

@[simp] theorem x16_memread_set (m : x16_t) (r v a : Nat) :
    x16_memread (x16_set m r v) a = x16_memread m a := rfl

@[simp] theorem x16_memread_mod (m : x16_t) (a : Nat) :
    x16_memread m (a % 65536) = x16_memread m a := by
  simp [x16_memread]

theorem x16_memread_congr (m : x16_t) (a b : Nat) (h : a % 65536 = b % 65536) :
    x16_memread m a = x16_memread m b := by
  simp [x16_memread, h]

@[simp] theorem x16_reg_memwrite (m : x16_t) (a v r : Nat) :
    x16_reg (x16_memwrite m a v) r = x16_reg m r := rfl

@[simp] theorem x16_memread_memwrite (m : x16_t) (a v b : Nat) :
    x16_memread (x16_memwrite m a v) b =
      if b % 65536 = a % 65536 then v % 65536 else x16_memread m b := by
  unfold x16_memread x16_memwrite
  by_cases h : b % 65536 = a % 65536 <;> simp [h]

theorem x16_reg_update_cond (m : x16_t) (r r' : Nat) (h : r' ≠ R_COND) :
    x16_reg (update_cond m r) r' = x16_reg m r' := by
  unfold update_cond
  simp only []
  split
  · simp [h]
  · split <;> simp [h]

@[simp] theorem x16_memread_update_cond (m : x16_t) (r a : Nat) :
    x16_memread (update_cond m r) a = x16_memread m a := by
  unfold update_cond
  simp only []
  split
  · rfl
  · split <;> rfl

theorem x16_cond_update_cond (m : x16_t) (r : Nat) :
    x16_reg (update_cond m r) R_COND =
      if x16_reg m r = 0 then FL_ZRO
      else if getbit (x16_reg m r) 15 = 1 then FL_NEG else FL_POS := by
  unfold update_cond is_negative
  simp only []
  split
  · simp [FL_ZRO]
  · split
    · next h => simp at h; simp [h, FL_NEG]
    · next h => simp at h; simp [h, FL_POS]

theorem getbits_eq (w n k : Nat) (hk : k ≤ 16) : getbits w n k = w / 2 ^ n % 2 ^ k := by
  unfold getbits
  rw [Nat.one_shiftLeft, Nat.and_pow_two_sub_one_eq_mod, Nat.shiftRight_eq_div_pow]
  have h1 : w / 2 ^ n % 2 ^ k < 2 ^ k := Nat.mod_lt _ (Nat.two_pow_pos k)
  have h2 : 2 ^ k ≤ 65536 := by
    have := Nat.pow_le_pow_right (show 0 < 2 by decide) hk
    simpa using this
  exact Nat.mod_eq_of_lt (by omega)

theorem getbits_3_lt (w n : Nat) : getbits w n 3 < 8 := getbits_lt w n 3

/-- The machine after the fetch: PC advanced by one word. -/
theorem x16_pc_fetch (m : x16_t) :
    x16_pc (x16_set m R_PC (x16_pc m + 1)) = (x16_pc m + 1) % 65536 := by
  simp [x16_pc]

theorem x16_reg_fetch (m : x16_t) (r : Nat) (h : r ≠ R_PC) :
    x16_reg (x16_set m R_PC (x16_pc m + 1)) r = x16_reg m r := by
  simp [h]

theorem exec_br (trap : x16_t → Nat → Int × x16_t) (m m1 : x16_t) (instr : Nat)
    (hi : x16_memread m (x16_pc m) = instr) (hm : x16_set m R_PC (x16_pc m + 1) = m1)
    (h : getopcode instr = OP_BR) :
    execute_instruction trap m =
      some (0,
        if getbits instr 9 3 = 0 ∨ getbits instr 9 3 &&& x16_reg m1 R_COND ≠ 0 then
          x16_set m1 R_PC ((x16_pc m1 + sign_extend (getbits instr 0 9) 9) % 65536)
        else m1) := by
  subst hi hm
  simp only [execute_instruction, h]
  rfl

theorem mask_bit (mask : Nat) (h : mask < 8) :
    (mask &&& 4 ≠ 0 ↔ mask / 4 % 2 = 1) ∧ (mask &&& 2 ≠ 0 ↔ mask / 2 % 2 = 1) ∧
    (mask &&& 1 ≠ 0 ↔ mask % 2 = 1) := by
  interval_cases mask <;> decide

theorem exec_add (trap : x16_t → Nat → Int × x16_t) (m m1 : x16_t) (instr : Nat)
    (hi : x16_memread m (x16_pc m) = instr) (hm : x16_set m R_PC (x16_pc m + 1) = m1)
    (h : getopcode instr = OP_ADD) :
    execute_instruction trap m =
      some (0, update_cond
        (if (getbit instr 5 != 0) == false then
          x16_set m1 (getbits instr 9 3)
            ((x16_reg m1 (getbits instr 6 3) + x16_reg m1 (getbits instr 0 3)) % 65536)
        else
          x16_set m1 (getbits instr 9 3)
            ((x16_reg m1 (getbits instr 6 3) + sign_extend (getbits instr 0 5) 5) % 65536))
        (getbits instr 9 3)) := by
  subst hi hm
  simp only [execute_instruction, h]
  rfl

theorem exec_and (trap : x16_t → Nat → Int × x16_t) (m m1 : x16_t) (instr : Nat)
    (hi : x16_memread m (x16_pc m) = instr) (hm : x16_set m R_PC (x16_pc m + 1) = m1)
    (h : getopcode instr = OP_AND) :
    execute_instruction trap m =
      some (0, update_cond
        (if (getbit instr 5 != 0) == false then
          x16_set m1 (getbits instr 9 3)
            ((x16_reg m1 (getbits instr 6 3) &&& x16_reg m1 (getbits instr 0 3)) % 65536)
        else
          x16_set m1 (getbits instr 9 3)
            ((x16_reg m1 (getbits instr 6 3) &&& sign_extend (getbits instr 0 5) 5) % 65536))
        (getbits instr 9 3)) := by
  subst hi hm
  simp only [execute_instruction, h]
  rfl

theorem exec_not (trap : x16_t → Nat → Int × x16_t) (m m1 : x16_t) (instr : Nat)
    (hi : x16_memread m (x16_pc m) = instr) (hm : x16_set m R_PC (x16_pc m + 1) = m1)
    (h : getopcode instr = OP_NOT) :
    execute_instruction trap m =
      some (0, update_cond
        (x16_set m1 (getbits instr 9 3) ((x16_reg m1 (getbits instr 6 3) ^^^ 0xFFFF) % 65536))
        (getbits instr 9 3)) := by
  subst hi hm
  simp only [execute_instruction, h]
  rfl

theorem exec_jmp (trap : x16_t → Nat → Int × x16_t) (m m1 : x16_t) (instr : Nat)
    (hi : x16_memread m (x16_pc m) = instr) (hm : x16_set m R_PC (x16_pc m + 1) = m1)
    (h : getopcode instr = OP_JMP) :
    execute_instruction trap m =
      some (0, x16_set m1 R_PC (x16_reg m1 (getbits instr 6 3))) := by
  subst hi hm
  simp only [execute_instruction, h]
  rfl

theorem exec_jsr (trap : x16_t → Nat → Int × x16_t) (m m1 : x16_t) (instr : Nat)
    (hi : x16_memread m (x16_pc m) = instr) (hm : x16_set m R_PC (x16_pc m + 1) = m1)
    (h : getopcode instr = OP_JSR) :
    execute_instruction trap m =
      some (0,
        if getbit instr 11 ≠ 0 then
          x16_set (x16_set m1 R_R7 (x16_pc m1)) R_PC
            (x16_pc m1 + sign_extend (getbits instr 0 11) 11)
        else
          x16_set (x16_set m1 R_R7 (x16_pc m1)) R_PC
            (x16_reg (x16_set m1 R_R7 (x16_pc m1)) (getbits instr 6 3))) := by
  subst hi hm
  simp only [execute_instruction, h]
  rfl

theorem exec_ld (trap : x16_t → Nat → Int × x16_t) (m m1 : x16_t) (instr : Nat)
    (hi : x16_memread m (x16_pc m) = instr) (hm : x16_set m R_PC (x16_pc m + 1) = m1)
    (h : getopcode instr = OP_LD) :
    execute_instruction trap m =
      some (0, update_cond
        (x16_set m1 (getbits instr 9 3)
          (x16_memread m1 ((x16_pc m1 + sign_extend (getbits instr 0 9) 9) % 65536)))
        (getbits instr 9 3)) := by
  subst hi hm
  simp only [execute_instruction, h]
  rfl

theorem exec_ldi (trap : x16_t → Nat → Int × x16_t) (m m1 : x16_t) (instr : Nat)
    (hi : x16_memread m (x16_pc m) = instr) (hm : x16_set m R_PC (x16_pc m + 1) = m1)
    (h : getopcode instr = OP_LDI) :
    execute_instruction trap m =
      some (0, update_cond
        (x16_set m1 (getbits instr 9 3)
          (x16_memread m1
            (x16_memread m1 (x16_pc m1 + sign_extend (getbits instr 0 9) 9))))
        (getbits instr 9 3)) := by
  subst hi hm
  simp only [execute_instruction, h]
  rfl

theorem exec_ldr (trap : x16_t → Nat → Int × x16_t) (m m1 : x16_t) (instr : Nat)
    (hi : x16_memread m (x16_pc m) = instr) (hm : x16_set m R_PC (x16_pc m + 1) = m1)
    (h : getopcode instr = OP_LDR) :
    execute_instruction trap m =
      some (0, update_cond
        (x16_set m1 (getbits instr 9 3)
          (x16_memread m1
            ((x16_reg m1 (getbits instr 6 3) + sign_extend (getbits instr 0 6) 6) % 65536)))
        (getbits instr 9 3)) := by
  subst hi hm
  simp only [execute_instruction, h]
  rfl

theorem exec_lea (trap : x16_t → Nat → Int × x16_t) (m m1 : x16_t) (instr : Nat)
    (hi : x16_memread m (x16_pc m) = instr) (hm : x16_set m R_PC (x16_pc m + 1) = m1)
    (h : getopcode instr = OP_LEA) :
    execute_instruction trap m =
      some (0, update_cond
        (x16_set m1 (getbits instr 9 3) (x16_pc m1 + sign_extend (getbits instr 0 9) 9))
        (getbits instr 9 3)) := by
  subst hi hm
  simp only [execute_instruction, h]
  rfl

theorem exec_st (trap : x16_t → Nat → Int × x16_t) (m m1 : x16_t) (instr : Nat)
    (hi : x16_memread m (x16_pc m) = instr) (hm : x16_set m R_PC (x16_pc m + 1) = m1)
    (h : getopcode instr = OP_ST) :
    execute_instruction trap m =
      some (0, x16_memwrite m1 ((x16_pc m1 + sign_extend (getbits instr 0 9) 9) % 65536)
        (x16_reg m1 (getbits instr 9 3))) := by
  subst hi hm
  simp only [execute_instruction, h]
  rfl

theorem exec_sti (trap : x16_t → Nat → Int × x16_t) (m m1 : x16_t) (instr : Nat)
    (hi : x16_memread m (x16_pc m) = instr) (hm : x16_set m R_PC (x16_pc m + 1) = m1)
    (h : getopcode instr = OP_STI) :
    execute_instruction trap m =
      some (0, x16_memwrite m1
        (x16_memread m1 (x16_pc m1 + sign_extend (getbits instr 0 9) 9))
        (x16_reg m1 (getbits instr 9 3))) := by
  subst hi hm
  simp only [execute_instruction, h]
  rfl

theorem exec_str (trap : x16_t → Nat → Int × x16_t) (m m1 : x16_t) (instr : Nat)
    (hi : x16_memread m (x16_pc m) = instr) (hm : x16_set m R_PC (x16_pc m + 1) = m1)
    (h : getopcode instr = OP_STR) :
    execute_instruction trap m =
      some (0, x16_memwrite m1
        ((x16_reg m1 (getbits instr 6 3) + sign_extend (getbits instr 0 6) 6) % 65536)
        (x16_reg m1 (getbits instr 9 3))) := by
  subst hi hm
  simp only [execute_instruction, h]
  rfl

theorem exec_trap (trap : x16_t → Nat → Int × x16_t) (m m1 : x16_t) (instr : Nat)
    (hi : x16_memread m (x16_pc m) = instr) (hm : x16_set m R_PC (x16_pc m + 1) = m1)
    (h : getopcode instr = OP_TRAP) :
    execute_instruction trap m = some (trap m1 instr) := by
  subst hi hm
  simp only [execute_instruction, h]
  rfl

theorem exec_reserved (trap : x16_t → Nat → Int × x16_t) (m : x16_t) (instr : Nat)
    (hi : x16_memread m (x16_pc m) = instr)
    (h : getopcode instr = OP_RES ∨ getopcode instr = OP_RTI) :
    execute_instruction trap m = none := by
  subst hi
  rcases h with h | h <;> simp only [execute_instruction, h] <;> rfl


theorem x16_reg_update_cond_dst (m : x16_t) (w n : Nat) :
    x16_reg (update_cond m (getbits w n 3)) (getbits w n 3) = x16_reg m (getbits w n 3) := by
  have h := getbits_3_lt w n
  exact x16_reg_update_cond m _ _ (by unfold R_COND; omega)

theorem update_cond_flags (m : x16_t) (w n : Nat) :
    (x16_reg (update_cond m (getbits w n 3)) R_COND = FL_ZRO ∨
      x16_reg (update_cond m (getbits w n 3)) R_COND = FL_NEG ∨
      x16_reg (update_cond m (getbits w n 3)) R_COND = FL_POS) ∧
    (x16_reg (update_cond m (getbits w n 3)) R_COND = FL_ZRO ↔
      x16_reg (update_cond m (getbits w n 3)) (getbits w n 3) = 0) ∧
    (x16_reg (update_cond m (getbits w n 3)) R_COND = FL_NEG ↔
      getbit (x16_reg (update_cond m (getbits w n 3)) (getbits w n 3)) 15 = 1) ∧
    (x16_reg (update_cond m (getbits w n 3)) R_COND = FL_POS ↔
      x16_reg (update_cond m (getbits w n 3)) (getbits w n 3) ≠ 0 ∧
      getbit (x16_reg (update_cond m (getbits w n 3)) (getbits w n 3)) 15 = 0) := by
  rw [x16_cond_update_cond, x16_reg_update_cond_dst]
  generalize x16_reg m (getbits w n 3) = v
  have hb : getbit v 15 = 0 ∨ getbit v 15 = 1 := by
    rw [getbit_eq]; omega
  by_cases hv : v = 0
  · subst hv
    simp [FL_ZRO, FL_NEG, FL_POS]
    decide
  · rcases hb with hb | hb <;> simp [hv, hb, FL_ZRO, FL_NEG, FL_POS]

theorem exec_flag_opcode (trap : x16_t → Nat → Int × x16_t) (m : x16_t) (instr : Nat)
    (hfetch : x16_memread m (x16_pc m) = instr)
    (hop : getopcode instr = OP_ADD ∨ getopcode instr = OP_AND ∨ getopcode instr = OP_NOT ∨
      getopcode instr = OP_LD ∨ getopcode instr = OP_LDI ∨ getopcode instr = OP_LDR ∨
      getopcode instr = OP_LEA) :
    ∃ m2, execute_instruction trap m = some (0, update_cond m2 (getbits instr 9 3)) := by
  rcases hop with h | h | h | h | h | h | h
  · exact ⟨_, exec_add trap m _ instr hfetch rfl h⟩
  · exact ⟨_, exec_and trap m _ instr hfetch rfl h⟩
  · exact ⟨_, exec_not trap m _ instr hfetch rfl h⟩
  · exact ⟨_, exec_ld trap m _ instr hfetch rfl h⟩
  · exact ⟨_, exec_ldi trap m _ instr hfetch rfl h⟩
  · exact ⟨_, exec_ldr trap m _ instr hfetch rfl h⟩
  · exact ⟨_, exec_lea trap m _ instr hfetch rfl h⟩

theorem x16_set_reg_congr (m m2 : x16_t) (r v : Nat) (h : m2.reg = m.reg) :
    (x16_set m2 r v).reg = (x16_set m r v).reg := by
  simp [x16_set, h]

theorem update_cond_reg_congr (m m2 : x16_t) (r : Nat) (h : m2.reg = m.reg) :
    (update_cond m2 r).reg = (update_cond m r).reg := by
  have hr : x16_reg m2 r = x16_reg m r := by simp [x16_reg, h]
  unfold update_cond
  simp only [hr]
  split
  · exact x16_set_reg_congr m m2 _ _ h
  · split <;> exact x16_set_reg_congr m m2 _ _ h

theorem load_result (m : x16_t) (instr v : Nat) (hv : v < 65536) :
    x16_reg (update_cond (x16_set (x16_set m R_PC (x16_pc m + 1)) (getbits instr 9 3) v)
        (getbits instr 9 3)) (getbits instr 9 3) = v ∧
    (∀ a, x16_memread (update_cond (x16_set (x16_set m R_PC (x16_pc m + 1)) (getbits instr 9 3) v)
        (getbits instr 9 3)) a = x16_memread m a) ∧
    x16_pc (update_cond (x16_set (x16_set m R_PC (x16_pc m + 1)) (getbits instr 9 3) v)
        (getbits instr 9 3)) = (x16_pc m + 1) % 65536 := by
  have hd := getbits_3_lt instr 9
  have hd8 : R_PC ≠ getbits instr 9 3 := by unfold R_PC; omega
  refine ⟨?_, fun a => ?_, ?_⟩
  · rw [x16_reg_update_cond_dst]
    simp [Nat.mod_eq_of_lt hv]
  · simp
  · unfold x16_pc
    rw [x16_reg_update_cond _ _ _ (by decide)]
    simp [hd8]

theorem store_result (m : x16_t) (instr target : Nat) :
    (∀ a, x16_memread (x16_memwrite (x16_set m R_PC (x16_pc m + 1)) target
        (x16_reg (x16_set m R_PC (x16_pc m + 1)) (getbits instr 9 3))) a =
      if a % 65536 = target % 65536 then x16_reg m (getbits instr 9 3) else x16_memread m a) ∧
    (∀ r, r < 8 → x16_reg (x16_memwrite (x16_set m R_PC (x16_pc m + 1)) target
        (x16_reg (x16_set m R_PC (x16_pc m + 1)) (getbits instr 9 3))) r = x16_reg m r) ∧
    x16_reg (x16_memwrite (x16_set m R_PC (x16_pc m + 1)) target
        (x16_reg (x16_set m R_PC (x16_pc m + 1)) (getbits instr 9 3))) R_COND =
      x16_reg m R_COND ∧
    x16_pc (x16_memwrite (x16_set m R_PC (x16_pc m + 1)) target
        (x16_reg (x16_set m R_PC (x16_pc m + 1)) (getbits instr 9 3))) =
      (x16_pc m + 1) % 65536 := by
  have hd := getbits_3_lt instr 9
  have hd8 : getbits instr 9 3 ≠ R_PC := by unfold R_PC; omega
  refine ⟨fun a => ?_, fun r hr => ?_, ?_, ?_⟩
  · simp [hd8, Nat.mod_eq_of_lt (x16_reg_lt m _)]
  · have h8 : r ≠ R_PC := by unfold R_PC; omega
    simp [h8]
  · have h8 : R_COND ≠ R_PC := by decide
    simp [h8]
  · simp [x16_pc]

theorem getopcode_lt (instr : Nat) : getopcode instr < 16 := getbits_lt instr 12 4

/-! ## Assembler layout lemmas -/

theorem pass1_step_inv (st : Pass1) (raw : List Char)
    (h1 : ∃ k : Nat, st.currentAddress = 0x3000 + 2 * (k : Int))
    (h2 : ∀ s ∈ st.symbols, ∃ a : Nat, s.address = 0x3000 + 2 * (a : Int)) :
    (∃ k : Nat, (pass1_step st raw).currentAddress = 0x3000 + 2 * (k : Int)) ∧
    (∀ s ∈ (pass1_step st raw).symbols, ∃ a : Nat, s.address = 0x3000 + 2 * (a : Int)) := by
  unfold pass1_step
  simp only []
  split
  · refine ⟨h1, fun s hs => ?_⟩
    rcases List.mem_append.1 hs with h | h
    · exact h2 s h
    · rw [List.mem_singleton] at h
      subst h
      exact h1
  · split
    · obtain ⟨k, hk⟩ := h1
      exact ⟨⟨k + 1, by simp only [hk]; push_cast; ring⟩, h2⟩
    · exact ⟨h1, h2⟩

theorem pass1_foldl_inv (lines : List (List Char)) (st : Pass1)
    (h1 : ∃ k : Nat, st.currentAddress = 0x3000 + 2 * (k : Int))
    (h2 : ∀ s ∈ st.symbols, ∃ a : Nat, s.address = 0x3000 + 2 * (a : Int)) :
    ∀ s ∈ (lines.foldl pass1_step st).symbols, ∃ a : Nat, s.address = 0x3000 + 2 * (a : Int) := by
  induction lines generalizing st with
  | nil => exact h2
  | cons l ls ih =>
    have h := pass1_step_inv st l h1 h2
    exact ih (pass1_step st l) h.1 h.2

theorem pass1_addresses (lines : List (List Char)) :
    ∀ s ∈ (pass1 lines).symbols, ∃ a : Nat, s.address = 0x3000 + 2 * (a : Int) :=
  pass1_foldl_inv lines ⟨[], 0x3000⟩ ⟨0, by simp⟩ (fun s hs => by simp at hs)

theorem findLabelAddress_mem (symbols : List Symbol) (label : List Char)
    (h : findLabelAddress symbols label ≠ -1) :
    ∃ s ∈ symbols, s.address = findLabelAddress symbols label := by
  induction symbols with
  | nil => exact absurd rfl h
  | cons s rest ih =>
    unfold findLabelAddress at h ⊢
    by_cases hs : s.label = label
    · simp only [hs, if_true] at h ⊢
      exact ⟨s, List.mem_cons_self _ _, rfl⟩
    · simp only [hs, if_false] at h ⊢
      obtain ⟨t, ht, he⟩ := ih h
      exact ⟨t, List.mem_cons_of_mem _ ht, he⟩

theorem pass2_foldl_inv (lines : List (List Char)) (st : Pass2)
    (h : st.currentAddress = 0x3000 + 2 * (st.written : Int)) :
    (lines.foldl pass2_step st).currentAddress =
      0x3000 + 2 * ((lines.foldl pass2_step st).written : Int) := by
  induction lines generalizing st with
  | nil => exact h
  | cons l ls ih =>
    apply ih
    unfold pass2_step
    simp only []
    split
    · simp only [h]; push_cast; ring
    · exact h

theorem pass2_address (lines : List (List Char)) :
    (pass2 lines).currentAddress = 0x3000 + 2 * ((pass2 lines).written : Int) :=
  pass2_foldl_inv lines ⟨0x3000, 0⟩ (by simp)

theorem calculate_offset_words (a b : Int) :
    calculate_offset (0x3000 + 2 * b) (0x3000 + 2 * a) = a - b - 1 := by
  unfold calculate_offset
  have e : (0x3000 + 2 * a - (0x3000 + 2 * b + 2) : Int) = 2 * (a - b - 1) := by ring
  rw [e]
  exact Int.mul_tdiv_cancel_left _ (by decide)

theorem branch_taken_pc (trap : x16_t → Nat → Int × x16_t) (m : x16_t) (w : Nat)
    (hfetch : x16_memread m (x16_pc m) = w) (hop : getopcode w = OP_BR)
    (htaken : getbits w 9 3 = 0 ∨ getbits w 9 3 &&& x16_reg m R_COND ≠ 0) :
    ∃ m', execute_instruction trap m = some (0, m') ∧
      x16_pc m' = (x16_pc m + 1 + sign_extend (getbits w 0 9) 9) % 65536 := by
  refine ⟨_, exec_br trap m _ w hfetch rfl hop, ?_⟩
  have hc : x16_reg (x16_set m R_PC (x16_pc m + 1)) R_COND = x16_reg m R_COND :=
    x16_reg_fetch m R_COND (by decide)
  rw [hc, if_pos htaken]
  simp only [x16_pc, x16_reg_set, if_true]
  omega

theorem branch_to_index (trap : x16_t → Nat → Int × x16_t) (m : x16_t) (w : Nat) (a b : Nat)
    (hpc : x16_pc m = (0x3000 + b) % 65536)
    (hfetch : x16_memread m (x16_pc m) = w) (hop : getopcode w = OP_BR)
    (hoff : ((getbits w 0 9 : Nat) : Int) = ((a : Int) - b - 1) % 512)
    (hlo : -256 ≤ (a : Int) - b - 1) (hhi : (a : Int) - b - 1 ≤ 255)
    (htaken : getbits w 9 3 = 0 ∨ getbits w 9 3 &&& x16_reg m R_COND ≠ 0) :
    ∃ m', execute_instruction trap m = some (0, m') ∧ x16_pc m' = (0x3000 + a) % 65536 := by
  obtain ⟨m', h1, h2⟩ := branch_taken_pc trap m w hfetch hop htaken
  refine ⟨m', h1, ?_⟩
  have hf : getbits w 0 9 < 2 ^ 9 := getbits_lt w 0 9
  rw [h2, sign_extend_of_field _ 9 (by decide) hf, hpc]
  norm_num at hf ⊢
  split <;> omega


/-! ## Assembler lemmas: pass 1 and the image -/

theorem takeWhile_before_colon (body rest : List Char) (h : ':' ∉ body) :
    (body ++ ':' :: rest).takeWhile (fun c => c != ':') = body := by
  induction body with
  | nil => simp
  | cons c cs ih =>
    have hc : c ≠ ':' := fun e => h (by simp [e])
    have hcs : ':' ∉ cs := fun e => h (List.mem_cons_of_mem _ e)
    simp [List.takeWhile_cons, hc, ih hcs]

theorem emitted_word_lt (o : Option Nat) (w : Nat) (h : emitted o = Parsed.word w) :
    w < 65536 := by
  unfold emitted at h
  split at h
  · injection h with h
    omega
  · exact Parsed.noConfusion h

theorem parse_br_word_lt (E : Encoders) (symbols : List Symbol) (line : List Char)
    (a : Int) (w : Nat) (h : parse_br E symbols line a = Parsed.word w) : w < 65536 := by
  unfold parse_br at h
  split at h
  · simp only [] at h
    split at h
    · exact emitted_word_lt _ _ h
    · split at h
      · split at h
        · exact Parsed.noConfusion h
        · exact emitted_word_lt _ _ h
      · exact Parsed.noConfusion h
  · exact Parsed.noConfusion h

theorem parse_arith_word_lt (f g : Int → Int → Int → Nat) (r1 r2 r3 : List Char) (w : Nat)
    (h : parse_arith f g r1 r2 r3 = Parsed.word w) : w < 65536 := by
  unfold parse_arith at h
  split at h <;> exact emitted_word_lt _ _ h

theorem parse_instruction_word_lt (E : Encoders) (symbols : List Symbol) (line : List Char)
    (a : Int) (w : Nat) (h : parse_instruction E symbols line a = Parsed.word w) :
    w < 65536 := by
  unfold parse_instruction at h
  repeat' split at h
  all_goals
    first
    | exact emitted_word_lt _ _ h
    | exact parse_br_word_lt _ _ _ _ _ h
    | exact parse_arith_word_lt _ _ _ _ _ _ h
    | (injection h with h; omega)

theorem writeBigEndian_of_lt (w : Nat) (h : w < 65536) :
    writeBigEndian w = [w / 256, w % 256] ∧ 256 * (w / 256) + w % 256 = w := by
  have h1 : (255 : Nat) = 2 ^ 8 - 1 := by norm_num
  refine ⟨?_, by omega⟩
  unfold writeBigEndian
  rw [h1, Nat.and_pow_two_sub_one_eq_mod, Nat.and_pow_two_sub_one_eq_mod,
    Nat.shiftRight_eq_div_pow]
  norm_num
  omega

theorem length_flatten_writeBigEndian (words : List Nat) :
    ((words.map writeBigEndian).flatten).length = 2 * words.length := by
  induction words with
  | nil => rfl
  | cons w ws ih =>
    simp only [List.map_cons, List.flatten_cons, List.length_append, ih, List.length_cons]
    simp [writeBigEndian]
    omega

theorem instruction_lines_cons (raw : List Char) (rest : List (List Char)) :
    instruction_lines (raw :: rest) =
      if (process_line raw).length > 1 ∧ ':' ∉ process_line raw then
        process_line raw :: instruction_lines rest
      else instruction_lines rest := by
  unfold instruction_lines
  by_cases h : (process_line raw).length > 1 ∧ ':' ∉ process_line raw
  · rw [if_pos h, List.map_cons, List.filter_cons_of_pos (by simpa using h)]
  · rw [if_neg h, List.map_cons, List.filter_cons_of_neg (by simpa using h)]

theorem pass2_loop_done (E : Encoders) (symbols : List Symbol) (lines : List (List Char)) :
    ∀ (a : Int) (output result : List Nat),
      pass2_loop E symbols lines a output = Run.done result →
      ∃ words : List Nat,
        words.length = (instruction_lines lines).length ∧
        result = output ++ (words.map writeBigEndian).flatten ∧
        ∀ (k : Nat) (line : List Char) (w : Nat),
          (instruction_lines lines)[k]? = some line → words[k]? = some w →
          parse_instruction E symbols line (a + 2 * k) = Parsed.word w := by
  induction lines with
  | nil =>
    intro a output result h
    unfold pass2_loop at h
    injection h with h
    exact ⟨[], rfl, by simp [h], by simp [instruction_lines]⟩
  | cons raw rest ih =>
    intro a output result h
    rw [instruction_lines_cons]
    unfold pass2_loop at h
    simp only [] at h
    by_cases hg : (process_line raw).length > 1 ∧ ':' ∉ process_line raw
    · rw [if_pos hg] at h ⊢
      cases hp : parse_instruction E symbols (process_line raw) a with
      | word w0 =>
        rw [hp] at h
        obtain ⟨words, hlen, hres, hk⟩ := ih (a + 2) _ _ h
        refine ⟨w0 :: words, by simp [hlen], by simp [hres], ?_⟩
        intro k line w hl hw
        cases k with
        | zero =>
          simp only [List.getElem?_cons_zero, Option.some.injEq] at hl hw
          subst hl hw
          simpa using hp
        | succ k =>
          simp only [List.getElem?_cons_succ] at hl hw
          have := hk k line w hl hw
          rw [← this]
          congr 1
          push_cast
          ring
      | exit s =>
        rw [hp] at h
        exact Run.noConfusion h
      | undefined =>
        rw [hp] at h
        exact Run.noConfusion h
    · rw [if_neg hg] at h ⊢
      exact ih a _ _ h

/-! ## Claims -/

/-- C1, counterexample. In the source file `halt`, `x:`, `brnzp x` pass 1 records the label
`x` at address 0x3002, pass 2 assembles the branch at address 0x3002 after one word has been
written, and `calculate_offset` gives -1. The branch word (opcode BRANCH, mask nzp, offset
field 0x1FF) is the second word of the image, so it is loaded at 0x3001; executing it there,
taken, leaves PC at 0x3001, which is not the address 0x3002 recorded for the label. -/
theorem branch_pc_differs_from_label_address :
    findLabelAddress (pass1 label_after_one).symbols "x".toList = 0x3002 ∧
    pass2 (label_after_one.take 2) = ⟨0x3002, 1⟩ ∧
    calculate_offset 0x3002 0x3002 = -1 ∧
    x16_pc (sample_machine 0x3001 0x0FFF) = 0x3000 + 1 ∧
    x16_memread (sample_machine 0x3001 0x0FFF) 0x3001 = 0x0FFF ∧
    getopcode 0x0FFF = OP_BR ∧
    ((getbits 0x0FFF 0 9 : Nat) : Int) = (-1) % 512 ∧
    getbits 0x0FFF 9 3 &&& x16_reg (sample_machine 0x3001 0x0FFF) R_COND ≠ 0 ∧
    (execute_instruction sample_trap (sample_machine 0x3001 0x0FFF)).map
      (fun r => (r.1, x16_pc r.2)) = some (0, 0x3001) ∧
    (execute_instruction sample_trap (sample_machine 0x3001 0x0FFF)).map
      (fun r => decide (((x16_pc r.2 : Nat) : Int) =
        findLabelAddress (pass1 label_after_one).symbols "x".toList)) = some false := by
  decide

/-- C1, as amended. For every source file `pre ++ line :: post`: let A be the address pass 1
records for a label (found by `findLabelAddress`), let B be the address at which pass 2
assembles `line`, and let the image be loaded one word per cell from 0x3000, so that the
word assembled for `line` is fetched at PC = 0x3000 + (words written before it). If that
word is a taken BRANCH whose 9-bit field holds `calculate_offset B A`, and that offset lies
in -256..255, then `execute_instruction` leaves PC = 0x3000 + (A - 0x3000) / 2 (mod 2^16):
the word address of the instruction that follows the label, A counting two per
instruction from 0x3000. -/
theorem branch_lands_on_word_after_label (trap : x16_t → Nat → Int × x16_t)
    (pre : List (List Char)) (line : List Char) (post : List (List Char)) (label : List Char)
    (A B : Int) (m : x16_t) (w : Nat)
    (hA : findLabelAddress (pass1 (pre ++ line :: post)).symbols label = A)
    (hfound : A ≠ -1)
    (hB : (pass2 pre).currentAddress = B)
    (hpc : x16_pc m = (0x3000 + (pass2 pre).written) % 65536)
    (hfetch : x16_memread m (x16_pc m) = w) (hop : getopcode w = OP_BR)
    (hoff : ((getbits w 0 9 : Nat) : Int) = calculate_offset B A % 512)
    (hlo : -256 ≤ calculate_offset B A) (hhi : calculate_offset B A ≤ 255)
    (htaken : getbits w 9 3 = 0 ∨ getbits w 9 3 &&& x16_reg m R_COND ≠ 0) :
    ∃ m', execute_instruction trap m = some (0, m') ∧
      ((x16_pc m' : Nat) : Int) = (0x3000 + (A - 0x3000) / 2) % 65536 ∧
      0x3000 ≤ A ∧ (A - 0x3000) % 2 = 0 := by
  subst hA hB
  obtain ⟨s, hs, hsa⟩ := findLabelAddress_mem _ label hfound
  obtain ⟨a, ha⟩ := pass1_addresses _ s hs
  rw [hsa] at ha
  have hb := pass2_address pre
  rw [ha, hb, calculate_offset_words] at hoff hlo hhi
  obtain ⟨m', h1, h2⟩ :=
    branch_to_index trap m w a (pass2 pre).written hpc hfetch hop hoff hlo hhi htaken
  refine ⟨m', h1, ?_, ?_, ?_⟩
  · rw [h2, ha]
    push_cast
    omega
  · rw [ha]
    omega
  · rw [ha]
    omega

/-- C1, witness: the loop of §8 scenario 3, whose label is at the origin. -/
theorem branch_lands_on_word_after_label_witness :
    findLabelAddress (pass1 (label_at_origin.take 2 ++ "brnzp loop\n".toList :: [])).symbols
      "loop".toList = 0x3000 ∧
    (pass2 (label_at_origin.take 2)).currentAddress = 0x3002 ∧
    calculate_offset 0x3002 0x3000 = -2 ∧
    ∃ m', execute_instruction sample_trap (sample_machine 0x3001 0x0FFE) = some (0, m') ∧
      ((x16_pc m' : Nat) : Int) = (0x3000 + ((0x3000 : Int) - 0x3000) / 2) % 65536 ∧
      0x3000 ≤ (0x3000 : Int) ∧ ((0x3000 : Int) - 0x3000) % 2 = 0 :=
  ⟨by decide, by decide, by decide,
    branch_lands_on_word_after_label sample_trap (label_at_origin.take 2)
      "brnzp loop\n".toList [] "loop".toList 0x3000 0x3002 (sample_machine 0x3001 0x0FFE) 0x0FFE
      (by decide) (by decide) (by decide) (by decide) (by decide) (by decide) (by decide)
      (by decide) (by decide) (by decide)⟩

/-- C2: when the instruction at PC has opcode ADD (resp. AND), `execute_instruction`
returns 0 and the destination register (bits 9-11) then holds src1 + operand mod 2^16
(resp. src1 AND operand), where src1 is the register of bits 6-8 and operand is the register
of bits 0-2 when bit 5 is 0 and `sign_extend (bits 0-4) 5` when bit 5 is 1, all read in
the state before the step. In particular `ADD R1,R2,R3` with R2 = 5 and R3 = 7 gives
R1 = 12 and COND = POSITIVE, and `ADD R1,R2,#-1` (immediate field 0b11111) with R2 = 0
gives R1 = 0xFFFF and COND = NEGATIVE. -/
theorem add_and_result (trap : x16_t → Nat → Int × x16_t) (m : x16_t) (instr : Nat)
    (hfetch : x16_memread m (x16_pc m) = instr) :
    (getopcode instr = OP_ADD →
      ∃ m', execute_instruction trap m = some (0, m') ∧
        x16_reg m' (getbits instr 9 3) =
          (x16_reg m (getbits instr 6 3) +
            (if getbit instr 5 = 0 then x16_reg m (getbits instr 0 3)
             else sign_extend (getbits instr 0 5) 5)) % 2 ^ 16) ∧
    (getopcode instr = OP_AND →
      ∃ m', execute_instruction trap m = some (0, m') ∧
        x16_reg m' (getbits instr 9 3) =
          x16_reg m (getbits instr 6 3) &&&
            (if getbit instr 5 = 0 then x16_reg m (getbits instr 0 3)
             else sign_extend (getbits instr 0 5) 5)) ∧
    (getopcode instr = OP_ADD → getbits instr 9 3 = R_R1 → getbits instr 6 3 = R_R2 →
        getbit instr 5 = 0 → getbits instr 0 3 = R_R3 →
        x16_reg m R_R2 = 5 → x16_reg m R_R3 = 7 →
      ∃ m', execute_instruction trap m = some (0, m') ∧
        x16_reg m' R_R1 = 12 ∧ x16_reg m' R_COND = FL_POS) ∧
    (getopcode instr = OP_ADD → getbits instr 9 3 = R_R1 → getbits instr 6 3 = R_R2 →
        getbit instr 5 = 1 → getbits instr 0 5 = 0b11111 →
        x16_reg m R_R2 = 0 →
      ∃ m', execute_instruction trap m = some (0, m') ∧
        x16_reg m' R_R1 = 0xFFFF ∧ x16_reg m' R_COND = FL_NEG) := by
  have h6 := getbits_3_lt instr 6
  have h0 := getbits_3_lt instr 0
  have e6 : x16_reg (x16_set m R_PC (x16_pc m + 1)) (getbits instr 6 3) =
      x16_reg m (getbits instr 6 3) := x16_reg_fetch m _ (by unfold R_PC; omega)
  have e0 : x16_reg (x16_set m R_PC (x16_pc m + 1)) (getbits instr 0 3) =
      x16_reg m (getbits instr 0 3) := x16_reg_fetch m _ (by unfold R_PC; omega)
  have hadd : getopcode instr = OP_ADD →
      ∃ m', execute_instruction trap m = some (0, m') ∧
        x16_reg m' (getbits instr 9 3) =
          (x16_reg m (getbits instr 6 3) +
            (if getbit instr 5 = 0 then x16_reg m (getbits instr 0 3)
             else sign_extend (getbits instr 0 5) 5)) % 2 ^ 16 ∧
        x16_reg m' R_COND =
          if x16_reg m' (getbits instr 9 3) = 0 then FL_ZRO
          else if getbit (x16_reg m' (getbits instr 9 3)) 15 = 1 then FL_NEG else FL_POS := by
    intro hop
    refine ⟨_, exec_add trap m _ instr hfetch rfl hop, ?_, ?_⟩
    · rw [x16_reg_update_cond_dst, e6, e0]
      by_cases hb : getbit instr 5 = 0 <;> simp [hb]
    · rw [x16_cond_update_cond, x16_reg_update_cond_dst]
  refine ⟨fun hop => ?_, fun hop => ?_, ?_, ?_⟩
  · obtain ⟨m', h1, h2, _⟩ := hadd hop
    exact ⟨m', h1, h2⟩
  · refine ⟨_, exec_and trap m _ instr hfetch rfl hop, ?_⟩
    rw [x16_reg_update_cond_dst, e6, e0]
    have hle : ∀ y, x16_reg m (getbits instr 6 3) &&& y < 65536 := fun y =>
      Nat.lt_of_le_of_lt Nat.and_le_left (x16_reg_lt m _)
    by_cases hb : getbit instr 5 = 0 <;> simp [hb, Nat.mod_eq_of_lt (hle _)]
  · intro hop d9 d6 d5 d0 h2 h3
    obtain ⟨m', h1, hv, hc⟩ := hadd hop
    rw [d9, d6, d0, d5, h2, h3] at hv
    rw [d9] at hc
    have hv' : x16_reg m' R_R1 = 12 := by simpa using hv
    refine ⟨m', h1, hv', ?_⟩
    rw [hc, hv']
    decide
  · intro hop d9 d6 d5 d0 h2
    obtain ⟨m', h1, hv, hc⟩ := hadd hop
    have ds : sign_extend 0b11111 5 = 0xFFFF := by decide
    rw [d9, d6, d5, d0, ds, h2] at hv
    rw [d9] at hc
    have hv' : x16_reg m' R_R1 = 0xFFFF := by simpa using hv
    refine ⟨m', h1, hv', ?_⟩
    rw [hc, hv']
    decide

/-- C2, witness: `ADD R1,R2,R3` on a machine with R2 = 5 and R3 = 7. -/
theorem add_and_result_witness :
    x16_memread (sample_machine 0x3000 0x1283) (x16_pc (sample_machine 0x3000 0x1283)) = 0x1283 ∧
    getopcode 0x1283 = OP_ADD ∧ getbits 0x1283 9 3 = R_R1 ∧ getbits 0x1283 6 3 = R_R2 ∧
    getbit 0x1283 5 = 0 ∧ getbits 0x1283 0 3 = R_R3 ∧
    x16_reg (sample_machine 0x3000 0x1283) R_R2 = 5 ∧
    x16_reg (sample_machine 0x3000 0x1283) R_R3 = 7 ∧
    ∃ m', execute_instruction sample_trap (sample_machine 0x3000 0x1283) = some (0, m') ∧
      x16_reg m' R_R1 = 12 ∧ x16_reg m' R_COND = FL_POS :=
  ⟨by decide, by decide, by decide, by decide, by decide, by decide, by decide, by decide,
    (add_and_result sample_trap (sample_machine 0x3000 0x1283) 0x1283 (by decide)).2.2.1
      (by decide) (by decide) (by decide) (by decide) (by decide) (by decide) (by decide)⟩

/-- C3: when the instruction at PC has a flag-updating opcode (ADD, AND, NOT, LD, LDI, LDR,
LEA), `execute_instruction` returns 0 and afterwards COND is one of the three distinct
values ZERO, NEGATIVE, POSITIVE: it is ZERO iff the destination register (bits 9-11) now
holds 0, NEGATIVE iff that value has bit 15 set, and POSITIVE iff the value is non-zero with
bit 15 clear. -/
theorem cond_flag_invariant (trap : x16_t → Nat → Int × x16_t) (m : x16_t) (instr : Nat)
    (hfetch : x16_memread m (x16_pc m) = instr)
    (hop : getopcode instr = OP_ADD ∨ getopcode instr = OP_AND ∨ getopcode instr = OP_NOT ∨
      getopcode instr = OP_LD ∨ getopcode instr = OP_LDI ∨ getopcode instr = OP_LDR ∨
      getopcode instr = OP_LEA) :
    ∃ m', execute_instruction trap m = some (0, m') ∧
      (x16_reg m' R_COND = FL_ZRO ∨ x16_reg m' R_COND = FL_NEG ∨
        x16_reg m' R_COND = FL_POS) ∧
      (FL_ZRO ≠ FL_NEG ∧ FL_ZRO ≠ FL_POS ∧ FL_NEG ≠ FL_POS) ∧
      (x16_reg m' R_COND = FL_ZRO ↔ x16_reg m' (getbits instr 9 3) = 0) ∧
      (x16_reg m' R_COND = FL_NEG ↔ getbit (x16_reg m' (getbits instr 9 3)) 15 = 1) ∧
      (x16_reg m' R_COND = FL_POS ↔
        x16_reg m' (getbits instr 9 3) ≠ 0 ∧
        getbit (x16_reg m' (getbits instr 9 3)) 15 = 0) := by
  obtain ⟨m2, h⟩ := exec_flag_opcode trap m instr hfetch hop
  obtain ⟨h1, h2, h3, h4⟩ := update_cond_flags m2 instr 9
  exact ⟨_, h, h1, by decide, h2, h3, h4⟩

/-- C3, witness: `ADD R1,R2,R3`. -/
theorem cond_flag_invariant_witness :
    x16_memread (sample_machine 0x3000 0x1283) (x16_pc (sample_machine 0x3000 0x1283)) = 0x1283 ∧
    getopcode 0x1283 = OP_ADD ∧
    ∃ m', execute_instruction sample_trap (sample_machine 0x3000 0x1283) = some (0, m') ∧
      (x16_reg m' R_COND = FL_ZRO ∨ x16_reg m' R_COND = FL_NEG ∨
        x16_reg m' R_COND = FL_POS) ∧
      (FL_ZRO ≠ FL_NEG ∧ FL_ZRO ≠ FL_POS ∧ FL_NEG ≠ FL_POS) ∧
      (x16_reg m' R_COND = FL_ZRO ↔ x16_reg m' (getbits 0x1283 9 3) = 0) ∧
      (x16_reg m' R_COND = FL_NEG ↔ getbit (x16_reg m' (getbits 0x1283 9 3)) 15 = 1) ∧
      (x16_reg m' R_COND = FL_POS ↔
        x16_reg m' (getbits 0x1283 9 3) ≠ 0 ∧
        getbit (x16_reg m' (getbits 0x1283 9 3)) 15 = 0) :=
  ⟨by decide, by decide,
    cond_flag_invariant sample_trap (sample_machine 0x3000 0x1283) 0x1283 (by decide)
      (Or.inl (by decide))⟩

/-- C4: when the instruction at address pc has opcode BRANCH, `execute_instruction`
returns 0 and sets PC to (pc + 1 + sign_extend (bits 0-8) 9) mod 2^16 if the mask of bits
9-11 is zero or shares a set bit with COND, and to (pc + 1) mod 2^16 otherwise; the eight
general registers, COND and memory are unchanged. The mask bit matching NEGATIVE is bit 11
of the instruction, the one matching ZERO is bit 10, the one matching POSITIVE is bit 9. -/
theorem branch_step (trap : x16_t → Nat → Int × x16_t) (m : x16_t) (instr : Nat)
    (hfetch : x16_memread m (x16_pc m) = instr) (hop : getopcode instr = OP_BR) :
    ∃ m', execute_instruction trap m = some (0, m') ∧
      (x16_pc m' =
        if getbits instr 9 3 = 0 ∨ getbits instr 9 3 &&& x16_reg m R_COND ≠ 0 then
          (x16_pc m + 1 + sign_extend (getbits instr 0 9) 9) % 2 ^ 16
        else (x16_pc m + 1) % 2 ^ 16) ∧
      (∀ r, r < 8 → x16_reg m' r = x16_reg m r) ∧
      x16_reg m' R_COND = x16_reg m R_COND ∧
      (∀ a, x16_memread m' a = x16_memread m a) ∧
      (getbits instr 9 3 &&& FL_NEG ≠ 0 ↔ getbit instr 11 = 1) ∧
      (getbits instr 9 3 &&& FL_ZRO ≠ 0 ↔ getbit instr 10 = 1) ∧
      (getbits instr 9 3 &&& FL_POS ≠ 0 ↔ getbit instr 9 = 1) := by
  refine ⟨_, exec_br trap m _ instr hfetch rfl hop, ?_, ?_, ?_, ?_, ?_⟩
  · have hc : x16_reg (x16_set m R_PC (x16_pc m + 1)) R_COND = x16_reg m R_COND :=
      x16_reg_fetch m R_COND (by decide)
    rw [hc]
    split
    · simp only [x16_pc, x16_reg_set, if_true]
      omega
    · exact x16_pc_fetch m
  · intro r hr
    have h8 : r ≠ R_PC := by unfold R_PC; omega
    split <;> simp [h8]
  · have h8 : R_COND ≠ R_PC := by decide
    split <;> simp [h8]
  · intro a
    split <;> simp
  · have hlt := getbits_3_lt instr 9
    have hm := mask_bit (getbits instr 9 3) hlt
    have e := getbits_eq instr 9 3 (by decide)
    rw [getbit_eq, getbit_eq, getbit_eq]
    simp only [FL_NEG, FL_ZRO, FL_POS]
    refine ⟨hm.1.trans ?_, hm.2.1.trans ?_, hm.2.2.trans ?_⟩ <;> rw [e] <;> norm_num <;> omega

/-- C4, witness: `BRnzp -1` at 0x3001 with COND = ZERO. -/
theorem branch_step_witness :
    x16_memread (sample_machine 0x3001 0x0FFF) (x16_pc (sample_machine 0x3001 0x0FFF)) = 0x0FFF ∧
    getopcode 0x0FFF = OP_BR ∧
    ∃ m', execute_instruction sample_trap (sample_machine 0x3001 0x0FFF) = some (0, m') ∧
      (x16_pc m' =
        if getbits 0x0FFF 9 3 = 0 ∨
            getbits 0x0FFF 9 3 &&& x16_reg (sample_machine 0x3001 0x0FFF) R_COND ≠ 0 then
          (x16_pc (sample_machine 0x3001 0x0FFF) + 1 + sign_extend (getbits 0x0FFF 0 9) 9) % 2 ^ 16
        else (x16_pc (sample_machine 0x3001 0x0FFF) + 1) % 2 ^ 16) ∧
      (∀ r, r < 8 → x16_reg m' r = x16_reg (sample_machine 0x3001 0x0FFF) r) ∧
      x16_reg m' R_COND = x16_reg (sample_machine 0x3001 0x0FFF) R_COND ∧
      (∀ a, x16_memread m' a = x16_memread (sample_machine 0x3001 0x0FFF) a) ∧
      (getbits 0x0FFF 9 3 &&& FL_NEG ≠ 0 ↔ getbit 0x0FFF 11 = 1) ∧
      (getbits 0x0FFF 9 3 &&& FL_ZRO ≠ 0 ↔ getbit 0x0FFF 10 = 1) ∧
      (getbits 0x0FFF 9 3 &&& FL_POS ≠ 0 ↔ getbit 0x0FFF 9 = 1) :=
  ⟨by decide, by decide,
    branch_step sample_trap (sample_machine 0x3001 0x0FFF) 0x0FFF (by decide) (by decide)⟩

/-- C5: when the instruction at address pc has opcode JUMP-TO-SUBROUTINE,
`execute_instruction` returns 0 having set R7 to (pc + 1) mod 2^16 in both forms; then, if
bit 11 is 1, PC is (pc + 1 + sign_extend (bits 0-10) 11) mod 2^16, and if bit 11 is 0, PC is
the value the base register of bits 6-8 holds once R7 has been written, which is the value
it held before the step whenever the base register is not R7. Registers R0-R6, COND and
memory are unchanged. -/
theorem jsr_step (trap : x16_t → Nat → Int × x16_t) (m : x16_t) (instr : Nat)
    (hfetch : x16_memread m (x16_pc m) = instr) (hop : getopcode instr = OP_JSR) :
    ∃ m', execute_instruction trap m = some (0, m') ∧
      x16_reg m' R_R7 = (x16_pc m + 1) % 2 ^ 16 ∧
      (getbit instr 11 = 1 →
        x16_pc m' = (x16_pc m + 1 + sign_extend (getbits instr 0 11) 11) % 2 ^ 16) ∧
      (getbit instr 11 = 0 →
        x16_pc m' = x16_reg (x16_set m R_R7 (x16_pc m + 1)) (getbits instr 6 3)) ∧
      (getbit instr 11 = 0 → getbits instr 6 3 ≠ R_R7 →
        x16_pc m' = x16_reg m (getbits instr 6 3)) ∧
      (∀ r, r < 7 → x16_reg m' r = x16_reg m r) ∧
      x16_reg m' R_COND = x16_reg m R_COND ∧
      (∀ a, x16_memread m' a = x16_memread m a) := by
  have hb : getbits instr 6 3 < 8 := getbits_3_lt instr 6
  have hb8 : getbits instr 6 3 ≠ R_PC := by unfold R_PC; omega
  have hp := x16_pc_fetch m
  refine ⟨_, exec_jsr trap m _ instr hfetch rfl hop, ?_, ?_, ?_, ?_, ?_, ?_, ?_⟩
  · have h78 : R_R7 ≠ R_PC := by decide
    split <;> simp [h78, hp]
  · intro h1
    rw [if_pos (by omega)]
    simp only [x16_pc, x16_reg_set, if_true]
    omega
  · intro h0
    rw [if_neg (by omega)]
    simp only [x16_pc, x16_reg_set, if_true, hb8, if_false]
    by_cases h7 : getbits instr 6 3 = R_R7
    · simp [h7, R_R7, R_PC]
    · simp [h7, x16_reg_lt]
  · intro h0 h7
    rw [if_neg (by omega)]
    simp only [x16_pc, x16_reg_set, if_true, hb8, h7, if_false]
    exact Nat.mod_eq_of_lt (x16_reg_lt m _)
  · intro r hr
    have h7 : r ≠ R_R7 := by unfold R_R7; omega
    have h8 : r ≠ R_PC := by unfold R_PC; omega
    split <;> simp [h7, h8]
  · split <;> simp [R_COND, R_R7, R_PC]
  · intro a
    split <;> simp

/-- C5, witness: the long form with offset 3 at 0x3000. -/
theorem jsr_step_witness :
    x16_memread (sample_machine 0x3000 0x4803) (x16_pc (sample_machine 0x3000 0x4803)) = 0x4803 ∧
    getopcode 0x4803 = OP_JSR ∧ getbit 0x4803 11 = 1 ∧
    ∃ m', execute_instruction sample_trap (sample_machine 0x3000 0x4803) = some (0, m') ∧
      x16_reg m' R_R7 = 0x3001 ∧ x16_pc m' = 0x3004 := by
  refine ⟨by decide, by decide, by decide, ?_⟩
  obtain ⟨m', h1, h2, h3, _⟩ :=
    jsr_step sample_trap (sample_machine 0x3000 0x4803) 0x4803 (by decide) (by decide)
  exact ⟨m', h1, h2.trans (by decide), (h3 (by decide)).trans (by decide)⟩

/-- C6: with P = (pc + 1) mod 2^16 and dst the register of bits 9-11, `execute_instruction`
returns 0 and leaves in dst: for LD, mem[P + sext9]; for LDI, mem[mem[P + sext9]]; for LDR,
mem[base + sext6] with the base register (bits 6-8) read before the write; for LEA,
P + sext9, whatever the rest of memory holds. Addresses are taken mod 2^16, memory is
unchanged and PC ends at P. -/
theorem load_step (trap : x16_t → Nat → Int × x16_t) (m : x16_t) (instr : Nat)
    (hfetch : x16_memread m (x16_pc m) = instr) :
    (getopcode instr = OP_LD →
      ∃ m', execute_instruction trap m = some (0, m') ∧
        x16_reg m' (getbits instr 9 3) =
          x16_memread m
            (((x16_pc m + 1) % 2 ^ 16 + sign_extend (getbits instr 0 9) 9) % 2 ^ 16) ∧
        (∀ a, x16_memread m' a = x16_memread m a) ∧
        x16_pc m' = (x16_pc m + 1) % 2 ^ 16) ∧
    (getopcode instr = OP_LDI →
      ∃ m', execute_instruction trap m = some (0, m') ∧
        x16_reg m' (getbits instr 9 3) =
          x16_memread m (x16_memread m
            (((x16_pc m + 1) % 2 ^ 16 + sign_extend (getbits instr 0 9) 9) % 2 ^ 16)) ∧
        (∀ a, x16_memread m' a = x16_memread m a) ∧
        x16_pc m' = (x16_pc m + 1) % 2 ^ 16) ∧
    (getopcode instr = OP_LDR →
      ∃ m', execute_instruction trap m = some (0, m') ∧
        x16_reg m' (getbits instr 9 3) =
          x16_memread m
            ((x16_reg m (getbits instr 6 3) + sign_extend (getbits instr 0 6) 6) % 2 ^ 16) ∧
        (∀ a, x16_memread m' a = x16_memread m a) ∧
        x16_pc m' = (x16_pc m + 1) % 2 ^ 16) ∧
    (getopcode instr = OP_LEA →
      ∃ m', execute_instruction trap m = some (0, m') ∧
        x16_reg m' (getbits instr 9 3) =
          ((x16_pc m + 1) % 2 ^ 16 + sign_extend (getbits instr 0 9) 9) % 2 ^ 16 ∧
        (∀ a, x16_memread m' a = x16_memread m a) ∧
        x16_pc m' = (x16_pc m + 1) % 2 ^ 16 ∧
        (∀ m2 : x16_t, m2.reg = m.reg → x16_memread m2 (x16_pc m2) = instr →
          ∃ m2', execute_instruction trap m2 = some (0, m2') ∧
            ∀ r, x16_reg m2' r = x16_reg m' r)) := by
  have hp := x16_pc_fetch m
  have h6 := getbits_3_lt instr 6
  have e6 : x16_reg (x16_set m R_PC (x16_pc m + 1)) (getbits instr 6 3) =
      x16_reg m (getbits instr 6 3) := x16_reg_fetch m _ (by unfold R_PC; omega)
  refine ⟨fun hop => ?_, fun hop => ?_, fun hop => ?_, fun hop => ?_⟩
  · obtain ⟨h1, h2, h3⟩ := load_result m instr _ (x16_memread_lt (x16_set m R_PC (x16_pc m + 1))
      ((x16_pc (x16_set m R_PC (x16_pc m + 1)) + sign_extend (getbits instr 0 9) 9) % 65536))
    refine ⟨_, exec_ld trap m _ instr hfetch rfl hop, ?_, h2, h3⟩
    rw [h1, hp]
    rfl
  · obtain ⟨h1, h2, h3⟩ := load_result m instr _ (x16_memread_lt (x16_set m R_PC (x16_pc m + 1))
      (x16_memread (x16_set m R_PC (x16_pc m + 1))
        (x16_pc (x16_set m R_PC (x16_pc m + 1)) + sign_extend (getbits instr 0 9) 9)))
    refine ⟨_, exec_ldi trap m _ instr hfetch rfl hop, ?_, h2, h3⟩
    rw [h1, hp]
    have e := x16_memread_congr m ((x16_pc m + 1) % 65536 + sign_extend (getbits instr 0 9) 9)
      (x16_pc m + 1 + sign_extend (getbits instr 0 9) 9) (by omega)
    simp [e]
  · obtain ⟨h1, h2, h3⟩ := load_result m instr _ (x16_memread_lt (x16_set m R_PC (x16_pc m + 1))
      ((x16_reg (x16_set m R_PC (x16_pc m + 1)) (getbits instr 6 3) +
        sign_extend (getbits instr 0 6) 6) % 65536))
    refine ⟨_, exec_ldr trap m _ instr hfetch rfl hop, ?_, h2, h3⟩
    rw [h1, e6]
    rfl
  · have hx := exec_lea trap m _ instr hfetch rfl hop
    have hs : x16_set (x16_set m R_PC (x16_pc m + 1)) (getbits instr 9 3)
        (x16_pc (x16_set m R_PC (x16_pc m + 1)) + sign_extend (getbits instr 0 9) 9) =
      x16_set (x16_set m R_PC (x16_pc m + 1)) (getbits instr 9 3)
        ((x16_pc (x16_set m R_PC (x16_pc m + 1)) + sign_extend (getbits instr 0 9) 9) % 65536) := by
      simp [x16_set]
    rw [hs] at hx
    obtain ⟨h1, h2, h3⟩ := load_result m instr
      ((x16_pc (x16_set m R_PC (x16_pc m + 1)) + sign_extend (getbits instr 0 9) 9) % 65536)
      (Nat.mod_lt _ (by decide))
    refine ⟨_, hx, ?_, h2, h3, ?_⟩
    · rw [h1, hp]
      rfl
    · intro m2 hreg hf2
      refine ⟨_, exec_lea trap m2 _ instr hf2 rfl hop, fun r => ?_⟩
      have hpc : x16_pc m2 = x16_pc m := by simp [x16_pc, x16_reg, hreg]
      rw [← hs, hpc]
      unfold x16_reg
      congr 1
      apply congrFun
      apply update_cond_reg_congr
      apply x16_set_reg_congr
      apply x16_set_reg_congr
      exact hreg

/-- C6, witness: `LD R1, #1` at 0x3000. -/
theorem load_step_witness :
    x16_memread (sample_machine 0x3000 0x2201) (x16_pc (sample_machine 0x3000 0x2201)) = 0x2201 ∧
    getopcode 0x2201 = OP_LD ∧
    ∃ m', execute_instruction sample_trap (sample_machine 0x3000 0x2201) = some (0, m') ∧
      x16_reg m' (getbits 0x2201 9 3) =
        x16_memread (sample_machine 0x3000 0x2201)
          (((x16_pc (sample_machine 0x3000 0x2201) + 1) % 2 ^ 16 +
            sign_extend (getbits 0x2201 0 9) 9) % 2 ^ 16) ∧
      (∀ a, x16_memread m' a = x16_memread (sample_machine 0x3000 0x2201) a) ∧
      x16_pc m' = (x16_pc (sample_machine 0x3000 0x2201) + 1) % 2 ^ 16 :=
  ⟨by decide, by decide,
    (load_step sample_trap (sample_machine 0x3000 0x2201) 0x2201 (by decide)).1 (by decide)⟩

/-- C7: for ST, STI and STR, `execute_instruction` returns 0 and the memory afterwards is
the memory before with the value of the source register (bits 9-11) written at one
address: P + sext9 for ST, mem[P + sext9] for STI, base + sext6 for STR (P = (pc + 1) mod
2^16, addresses mod 2^16). Every other cell, the eight general registers and COND are
unchanged, and PC ends at P. -/
theorem store_step (trap : x16_t → Nat → Int × x16_t) (m : x16_t) (instr : Nat)
    (hfetch : x16_memread m (x16_pc m) = instr) :
    (getopcode instr = OP_ST →
      ∃ m', execute_instruction trap m = some (0, m') ∧
        (∀ a, x16_memread m' a =
          if a % 2 ^ 16 = ((x16_pc m + 1) % 2 ^ 16 + sign_extend (getbits instr 0 9) 9) % 2 ^ 16
          then x16_reg m (getbits instr 9 3) else x16_memread m a) ∧
        (∀ r, r < 8 → x16_reg m' r = x16_reg m r) ∧
        x16_reg m' R_COND = x16_reg m R_COND ∧
        x16_pc m' = (x16_pc m + 1) % 2 ^ 16) ∧
    (getopcode instr = OP_STI →
      ∃ m', execute_instruction trap m = some (0, m') ∧
        (∀ a, x16_memread m' a =
          if a % 2 ^ 16 = x16_memread m
            (((x16_pc m + 1) % 2 ^ 16 + sign_extend (getbits instr 0 9) 9) % 2 ^ 16)
          then x16_reg m (getbits instr 9 3) else x16_memread m a) ∧
        (∀ r, r < 8 → x16_reg m' r = x16_reg m r) ∧
        x16_reg m' R_COND = x16_reg m R_COND ∧
        x16_pc m' = (x16_pc m + 1) % 2 ^ 16) ∧
    (getopcode instr = OP_STR →
      ∃ m', execute_instruction trap m = some (0, m') ∧
        (∀ a, x16_memread m' a =
          if a % 2 ^ 16 =
            (x16_reg m (getbits instr 6 3) + sign_extend (getbits instr 0 6) 6) % 2 ^ 16
          then x16_reg m (getbits instr 9 3) else x16_memread m a) ∧
        (∀ r, r < 8 → x16_reg m' r = x16_reg m r) ∧
        x16_reg m' R_COND = x16_reg m R_COND ∧
        x16_pc m' = (x16_pc m + 1) % 2 ^ 16) := by
  have hp := x16_pc_fetch m
  have h6 := getbits_3_lt instr 6
  have e6 : x16_reg (x16_set m R_PC (x16_pc m + 1)) (getbits instr 6 3) =
      x16_reg m (getbits instr 6 3) := x16_reg_fetch m _ (by unfold R_PC; omega)
  refine ⟨fun hop => ?_, fun hop => ?_, fun hop => ?_⟩
  · obtain ⟨h1, h2, h3, h4⟩ := store_result m instr
      ((x16_pc (x16_set m R_PC (x16_pc m + 1)) + sign_extend (getbits instr 0 9) 9) % 65536)
    refine ⟨_, exec_st trap m _ instr hfetch rfl hop, fun a => ?_, h2, h3, h4⟩
    rw [h1 a, hp]
    simp
  · obtain ⟨h1, h2, h3, h4⟩ := store_result m instr
      (x16_memread (x16_set m R_PC (x16_pc m + 1))
        (x16_pc (x16_set m R_PC (x16_pc m + 1)) + sign_extend (getbits instr 0 9) 9))
    refine ⟨_, exec_sti trap m _ instr hfetch rfl hop, fun a => ?_, h2, h3, h4⟩
    rw [h1 a, hp]
    have e := x16_memread_congr m ((x16_pc m + 1) % 65536 + sign_extend (getbits instr 0 9) 9)
      (x16_pc m + 1 + sign_extend (getbits instr 0 9) 9) (by omega)
    simp [Nat.mod_eq_of_lt (x16_memread_lt m _), e]
  · obtain ⟨h1, h2, h3, h4⟩ := store_result m instr
      ((x16_reg (x16_set m R_PC (x16_pc m + 1)) (getbits instr 6 3) +
        sign_extend (getbits instr 0 6) 6) % 65536)
    refine ⟨_, exec_str trap m _ instr hfetch rfl hop, fun a => ?_, h2, h3, h4⟩
    rw [h1 a, e6]
    simp

/-- C7, witness: `ST R1, #1` at 0x3000. -/
theorem store_step_witness :
    x16_memread (sample_machine 0x3000 0x3201) (x16_pc (sample_machine 0x3000 0x3201)) = 0x3201 ∧
    getopcode 0x3201 = OP_ST ∧
    ∃ m', execute_instruction sample_trap (sample_machine 0x3000 0x3201) = some (0, m') ∧
      (∀ a, x16_memread m' a =
        if a % 2 ^ 16 = ((x16_pc (sample_machine 0x3000 0x3201) + 1) % 2 ^ 16 +
            sign_extend (getbits 0x3201 0 9) 9) % 2 ^ 16
        then x16_reg (sample_machine 0x3000 0x3201) (getbits 0x3201 9 3)
        else x16_memread (sample_machine 0x3000 0x3201) a) ∧
      (∀ r, r < 8 → x16_reg m' r = x16_reg (sample_machine 0x3000 0x3201) r) ∧
      x16_reg m' R_COND = x16_reg (sample_machine 0x3000 0x3201) R_COND ∧
      x16_pc m' = (x16_pc (sample_machine 0x3000 0x3201) + 1) % 2 ^ 16 :=
  ⟨by decide, by decide,
    (store_step sample_trap (sample_machine 0x3000 0x3201) 0x3201 (by decide)).1 (by decide)⟩

/-- C8: `execute_instruction` returns status 0 when the opcode of the fetched instruction
is one of the 13 legal opcodes other than the system call; for the system-call opcode it
returns what the trap handler returns when given the machine with PC already incremented
and the full instruction word; and it aborts (no status) exactly when the opcode is one of
the two reserved opcodes. -/
theorem step_return_contract (trap : x16_t → Nat → Int × x16_t) (m : x16_t) (instr : Nat)
    (hfetch : x16_memread m (x16_pc m) = instr) :
    (getopcode instr ∈ [OP_BR, OP_ADD, OP_LD, OP_ST, OP_JSR, OP_AND, OP_LDR, OP_STR, OP_NOT,
        OP_LDI, OP_STI, OP_JMP, OP_LEA] →
      ∃ m', execute_instruction trap m = some (0, m')) ∧
    (getopcode instr = OP_TRAP →
      execute_instruction trap m = some (trap (x16_set m R_PC (x16_pc m + 1)) instr)) ∧
    (execute_instruction trap m = none ↔
      getopcode instr = OP_RES ∨ getopcode instr = OP_RTI) := by
  have hlt := getopcode_lt instr
  have hlegal : getopcode instr ∈ [OP_BR, OP_ADD, OP_LD, OP_ST, OP_JSR, OP_AND, OP_LDR, OP_STR,
      OP_NOT, OP_LDI, OP_STI, OP_JMP, OP_LEA] →
      ∃ m', execute_instruction trap m = some (0, m') := by
    intro hmem
    simp only [List.mem_cons, List.mem_singleton, List.not_mem_nil, or_false] at hmem
    rcases hmem with h | h | h | h | h | h | h | h | h | h | h | h | h
    · exact ⟨_, exec_br trap m _ instr hfetch rfl h⟩
    · exact ⟨_, exec_add trap m _ instr hfetch rfl h⟩
    · exact ⟨_, exec_ld trap m _ instr hfetch rfl h⟩
    · exact ⟨_, exec_st trap m _ instr hfetch rfl h⟩
    · exact ⟨_, exec_jsr trap m _ instr hfetch rfl h⟩
    · exact ⟨_, exec_and trap m _ instr hfetch rfl h⟩
    · exact ⟨_, exec_ldr trap m _ instr hfetch rfl h⟩
    · exact ⟨_, exec_str trap m _ instr hfetch rfl h⟩
    · exact ⟨_, exec_not trap m _ instr hfetch rfl h⟩
    · exact ⟨_, exec_ldi trap m _ instr hfetch rfl h⟩
    · exact ⟨_, exec_sti trap m _ instr hfetch rfl h⟩
    · exact ⟨_, exec_jmp trap m _ instr hfetch rfl h⟩
    · exact ⟨_, exec_lea trap m _ instr hfetch rfl h⟩
  refine ⟨hlegal, fun h => exec_trap trap m _ instr hfetch rfl h, ?_, fun h => ?_⟩
  · intro hnone
    by_contra hne
    have hcases : getopcode instr = OP_TRAP ∨
        getopcode instr ∈ [OP_BR, OP_ADD, OP_LD, OP_ST, OP_JSR, OP_AND, OP_LDR, OP_STR,
          OP_NOT, OP_LDI, OP_STI, OP_JMP, OP_LEA] := by
      simp only [OP_RES, OP_RTI] at hne
      simp only [List.mem_cons, List.mem_singleton, List.not_mem_nil, or_false, OP_TRAP, OP_BR,
        OP_ADD, OP_LD, OP_ST, OP_JSR, OP_AND, OP_LDR, OP_STR, OP_NOT, OP_LDI, OP_STI, OP_JMP,
        OP_LEA]
      omega
    rcases hcases with h | h
    · rw [exec_trap trap m _ instr hfetch rfl h] at hnone
      exact Option.noConfusion hnone
    · obtain ⟨m', hm'⟩ := hlegal h
      rw [hm'] at hnone
      exact Option.noConfusion hnone
  · exact exec_reserved trap m instr hfetch h

/-- C8, witness: a system-call word at 0x3000. -/
theorem step_return_contract_witness :
    x16_memread (sample_machine 0x3000 0xF025) (x16_pc (sample_machine 0x3000 0xF025)) = 0xF025 ∧
    getopcode 0xF025 = OP_TRAP ∧
    execute_instruction sample_trap (sample_machine 0x3000 0xF025) =
      some (sample_trap (x16_set (sample_machine 0x3000 0xF025) R_PC
        (x16_pc (sample_machine 0x3000 0xF025) + 1)) 0xF025) :=
  ⟨by decide, by decide,
    (step_return_contract sample_trap (sample_machine 0x3000 0xF025) 0xF025 (by decide)).2.1
      (by decide)⟩

/-- C9: for 1 ≤ k ≤ 15 and a k-bit field x < 2^k: if bit k-1 of x is 1 then
`sign_extend x k` is x + 2^16 - 2^k, the 16-bit two's-complement encoding of x - 2^k, and
if bit k-1 is 0 it is x; `sign_extend 0b11111 5` is 0xFFFF and `sign_extend 0b01111 5`
is 15. -/
theorem sign_extend_field (k x : Nat) (hk1 : 1 ≤ k) (hk : k ≤ 15) (hx : x < 2 ^ k) :
    (getbit x (k - 1) = 1 →
      sign_extend x k = x + 2 ^ 16 - 2 ^ k ∧
      ((sign_extend x k : Nat) : Int) = ((x : Int) - 2 ^ k) % 2 ^ 16) ∧
    (getbit x (k - 1) = 0 → sign_extend x k = x) ∧
    sign_extend 0b11111 5 = 0xFFFF ∧ sign_extend 0b01111 5 = 15 := by
  have hle : 2 ^ k ≤ 65536 := by
    have := Nat.pow_le_pow_right (show 0 < 2 by decide) (show k ≤ 16 by omega)
    simpa using this
  refine ⟨fun hb => ?_, fun hb => ?_, by decide, by decide⟩
  · have hge := getbit_top_one x k hb
    have e : sign_extend x k = x + 2 ^ 16 - 2 ^ k := by
      rw [sign_extend_of_field x k (by omega) hx, if_pos hge]
      norm_num
    refine ⟨e, ?_⟩
    rw [e]
    have hc : ((2 ^ k : Nat) : Int) = (2 : Int) ^ k := by push_cast; rfl
    generalize (2 : Int) ^ k = p at hc
    generalize 2 ^ k = q at *
    norm_num
    omega
  · have hlt := getbit_top_zero x k hk1 hx hb
    exact sign_extend_small x k hlt

/-- C9, witness: the 5-bit field 0b10110. -/
theorem sign_extend_field_witness :
    1 ≤ 5 ∧ 5 ≤ 15 ∧ 0b10110 < 2 ^ 5 ∧ getbit 0b10110 (5 - 1) = 1 ∧
    sign_extend 0b10110 5 = 0b10110 + 2 ^ 16 - 2 ^ 5 ∧
    ((sign_extend 0b10110 5 : Nat) : Int) = ((0b10110 : Nat) - 2 ^ 5 : Int) % 2 ^ 16 :=
  ⟨by decide, by decide, by decide, by decide,
    (sign_extend_field 5 0b10110 (by decide) (by decide) (by decide)).1 (by decide)⟩

/-- C10, counterexample. The word 0x20 has its low 5 bits clear, so its 5-bit widening is
0 and bit 4 is 0; `sign_extend 0x20 5` is 0xFFE0, whose bit 5 is 1. -/
theorem sign_extend_not_low_bits_widening :
    sign_extend 0x20 5 = 0xFFE0 ∧ sign_extend_spec 0x20 5 = 0 ∧
    getbit 0x20 4 = 0 ∧ getbit (sign_extend 0x20 5) 5 = 1 ∧
    sign_extend 0x20 5 ≠ sign_extend_spec 0x20 5 := by
  decide

/-- C10, as amended. For every 16-bit value and 1 ≤ k ≤ 15, `sign_extend value k` is a
16-bit word that keeps the low k bits of value; and when value is a k-bit field
(value < 2^k, no bit set at or above position k) every bit at a position k..15 equals
bit k-1 of value and the result is the 16-bit two's-complement widening of the field. -/
theorem sign_extend_low_bits_and_field (value k : Nat) (hv : value < 65536) (hk1 : 1 ≤ k)
    (hk : k ≤ 15) :
    sign_extend value k < 65536 ∧
    (∀ i, i < k → getbit (sign_extend value k) i = getbit value i) ∧
    (value < 2 ^ k →
      (∀ i, k ≤ i → i < 16 → getbit (sign_extend value k) i = getbit value (k - 1)) ∧
      sign_extend value k = sign_extend_spec value k) := by
  refine ⟨?_, fun i hi => getbit_sign_extend_low value k i (by omega) hi, fun hlt => ⟨?_, ?_⟩⟩
  · unfold sign_extend
    split
    · exact Nat.mod_lt _ (by decide)
    · exact hv
  · intro i hki hi
    rw [getbit_sign_extend_high value k i hk1 hki hi]
    by_cases h : 2 ^ (k - 1) ≤ value
    · have hne : value >>> (k - 1) ≠ 0 := (shiftRight_ne_zero_iff value (k - 1)).2 h
      rw [if_neg hne]
      have hd := pow_pred_double k hk1
      have hq : value / 2 ^ (k - 1) = 1 := by
        have hpos : 0 < 2 ^ (k - 1) := Nat.two_pow_pos _
        have h1 : value / 2 ^ (k - 1) < 2 := by
          rw [Nat.div_lt_iff_lt_mul hpos]; omega
        have h2 : 0 < value / 2 ^ (k - 1) := Nat.div_pos h hpos
        omega
      rw [getbit_eq, hq]
    · have hz : value >>> (k - 1) = 0 := by
        by_contra hne
        exact h ((shiftRight_ne_zero_iff value (k - 1)).1 hne)
      rw [if_pos hz, getbit_eq, Nat.div_eq_of_lt (by omega)]
  · unfold sign_extend_spec
    simp only [Nat.mod_eq_of_lt hlt]
    rw [sign_extend_of_field value k (by omega) hlt]
    norm_num

/-- C10, witness: the 5-bit field 0b10110. -/
theorem sign_extend_low_bits_and_field_witness :
    0b10110 < 65536 ∧ 1 ≤ 5 ∧ 5 ≤ 15 ∧ 0b10110 < 2 ^ 5 ∧
    (∀ i, 5 ≤ i → i < 16 → getbit (sign_extend 0b10110 5) i = getbit 0b10110 (5 - 1)) ∧
    sign_extend 0b10110 5 = sign_extend_spec 0b10110 5 :=
  ⟨by decide, by decide, by decide, by decide,
    (sign_extend_low_bits_and_field 0b10110 5 (by decide) (by decide) (by decide)).2.2
      (by decide)⟩

/-- C11: for a 16-bit word w and a field with n + width ≤ 16, `getbits w n width` is
floor(w / 2^n) mod 2^width; and for n ≤ 15, `getbit w n` is `getbits w n 1`, which is
0 or 1. -/
theorem getbits_is_field (w n width : Nat) (_hw : w < 65536) (h : n + width ≤ 16) :
    getbits w n width = w / 2 ^ n % 2 ^ width ∧
    (n ≤ 15 → getbit w n = getbits w n 1 ∧ (getbit w n = 0 ∨ getbit w n = 1)) := by
  refine ⟨getbits_eq w n width (by omega), fun _ => ⟨?_, ?_⟩⟩
  · rw [getbit_eq, getbits_eq w n 1 (by decide)]
    norm_num
  · rw [getbit_eq]
    omega

/-- C11, witness: the field of bits 9-11 of 0x1283. -/
theorem getbits_is_field_witness :
    0x1283 < 65536 ∧ 9 + 3 ≤ 16 ∧ 9 ≤ 15 ∧
    getbits 0x1283 9 3 = 0x1283 / 2 ^ 9 % 2 ^ 3 ∧
    getbit 0x1283 9 = getbits 0x1283 9 1 ∧ (getbit 0x1283 9 = 0 ∨ getbit 0x1283 9 = 1) :=
  ⟨by decide, by decide, by decide,
    (getbits_is_field 0x1283 9 3 (by decide) (by decide)).1,
    (getbits_is_field 0x1283 9 3 (by decide) (by decide)).2 (by decide)⟩

/-- C12, the code at the failing input `halt # stop`: white space is cut at the end of the
line before the comment is cut, so the blank in front of `#` stays: the first call gives
`halt ` (with the blank) and a second call gives `halt`. Pass 2 hands the result of one
call to `parse_instruction`, which compares the zero-operand mnemonics with `strcmp`: the
line `halt ` is not recognised (the word 2 comes back) although `halt` is. -/
theorem process_line_second_call_differs :
    process_line "halt # stop\n".toList = "halt ".toList ∧
    process_line (process_line "halt # stop\n".toList) = "halt".toList ∧
    process_line (process_line "halt # stop\n".toList) ≠ process_line "halt # stop\n".toList ∧
    parse_instruction sample_encoders [] "halt ".toList 0x3000 = Parsed.word 2 ∧
    parse_instruction sample_encoders [] "halt".toList 0x3000 = Parsed.word 0xF025 := by
  decide

/-- C13, the code at the failing inputs: with an empty symbol table the line
`brnzp nowhere` ends the process with `exit(2)`, but `jsr nowhere`, `ld %r1 nowhere`,
`lea %r1 nowhere` and `st %r1 nowhere` return a word, encoded with the offset
`calculate_offset` computes to the not-found value -1. -/
theorem unresolved_label_only_fatal_in_br (E : Encoders) (a : Int) :
    findLabelAddress [] "nowhere".toList = -1 ∧
    parse_instruction E [] "brnzp nowhere".toList a = Parsed.exit 2 ∧
    parse_instruction E [] "jsr nowhere".toList a =
      Parsed.word (E.emit_jsr (calculate_offset a (-1)) % 65536) ∧
    parse_instruction E [] "ld %r1 nowhere".toList a =
      Parsed.word (E.emit_ld 1 (calculate_offset a (-1)) % 65536) ∧
    parse_instruction E [] "lea %r1 nowhere".toList a =
      Parsed.word (E.emit_lea 1 (calculate_offset a (-1)) % 65536) ∧
    parse_instruction E [] "st %r1 nowhere".toList a =
      Parsed.word (E.emit_st 1 (calculate_offset a (-1)) % 65536) ∧
    calculate_offset 0x3000 (-1) = -6145 :=
  ⟨rfl, rfl, rfl, rfl, rfl, rfl, by decide⟩

/-- C14, the code at the failing input: for the source file `foo bar`, `halt` the line
`foo bar` matches no form, `parse_instruction` returns 2, and `main` writes the word
0x0002 for it and goes on to write the word of the following `halt` line. -/
theorem unrecognised_line_is_emitted (E : Encoders) (a : Int) :
    parse_instruction E [] "foo bar".toList a = Parsed.word 2 ∧
    assemble E ["foo bar\n".toList, "halt\n".toList] =
      Run.done ([0x30, 0x00, 0x00, 0x02] ++ writeBigEndian ((0xF000 ||| E.TRAP_HALT) % 65536)) ∧
    assemble sample_encoders ["foo bar\n".toList, "halt\n".toList] =
      Run.done [0x30, 0x00, 0x00, 0x02, 0xF0, 0x25] :=
  ⟨rfl, rfl, by decide⟩

/-- C15, the code at the failing inputs: the test for `"ld %s %s"` comes before those for
`ldi` and `ldr`, and the test for `"st %s %s"` before those for `sti` and `str`. On
`ldi %r1 x` the `ld` test succeeds with the register token `i` and the label `%r1`, so the
`ld` branch is taken; `parse_register` has no value for `i` and the result is undefined.
The same happens to `ldr`, `sti` and `str` lines, whose own branches are never reached.
The forms `ld`, `lea` and `st` reach their own encoder. -/
theorem ld_and_st_tests_shadow_longer_mnemonics (E : Encoders) (symbols : List Symbol)
    (a : Int) :
    sscanf "ldi %r1 x".toList fmt_ld = [Scanned.str "i".toList, Scanned.str "%r1".toList] ∧
    parse_register "i".toList = none ∧
    parse_instruction E symbols "ldi %r1 x".toList a = Parsed.undefined ∧
    sscanf "ldr %r1 %r2 #3".toList fmt_ld = [Scanned.str "r".toList, Scanned.str "%r1".toList] ∧
    parse_instruction E symbols "ldr %r1 %r2 #3".toList a = Parsed.undefined ∧
    sscanf "sti %r1 x".toList fmt_st = [Scanned.str "i".toList, Scanned.str "%r1".toList] ∧
    parse_instruction E symbols "sti %r1 x".toList a = Parsed.undefined ∧
    sscanf "str %r1 %r2 #3".toList fmt_st = [Scanned.str "r".toList, Scanned.str "%r1".toList] ∧
    parse_instruction E symbols "str %r1 %r2 #3".toList a = Parsed.undefined ∧
    parse_instruction E symbols "ld %r1 x".toList a =
      Parsed.word (E.emit_ld 1 (calculate_offset a (findLabelAddress symbols "x".toList)) % 65536) ∧
    parse_instruction E symbols "lea %r1 x".toList a =
      Parsed.word (E.emit_lea 1 (calculate_offset a (findLabelAddress symbols "x".toList)) % 65536) ∧
    parse_instruction E symbols "st %r1 x".toList a =
      Parsed.word (E.emit_st 1 (calculate_offset a (findLabelAddress symbols "x".toList)) % 65536) :=
  ⟨by decide, by decide, rfl, by decide, rfl, by decide, rfl, by decide, rfl, rfl, rfl, rfl⟩

/-- C16, counterexample. The normalised line `x` is not empty and does not end with `:`,
yet pass 1 leaves the address at 0x3000; the normalised line `loop: halt` does not end
with `:` either, yet pass 1 records the label `loop` and leaves the address at 0x3000. -/
theorem pass1_does_not_go_by_last_character :
    process_line "x".toList = "x".toList ∧ "x".toList ≠ [] ∧
    "x".toList.getLast? ≠ some ':' ∧
    (pass1_step ⟨[], 0x3000⟩ "x".toList).symbols = [] ∧
    (pass1_step ⟨[], 0x3000⟩ "x".toList).currentAddress = 0x3000 ∧
    process_line "loop: halt".toList = "loop: halt".toList ∧
    "loop: halt".toList.getLast? ≠ some ':' ∧
    (pass1_step ⟨[], 0x3000⟩ "loop: halt".toList).symbols = [⟨"loop".toList, 0x3000⟩] ∧
    (pass1_step ⟨[], 0x3000⟩ "loop: halt".toList).currentAddress = 0x3000 := by
  decide

/-- C16, as amended. One step of pass 1 on a line, by its normalised form: if it contains
`:` the entry (text before the first `:`, current address) is appended and the address is
unchanged, and for a line `body:` with no other `:` that text is `body`; otherwise, if
it is longer than one character, nothing is appended and the address advances by exactly
2; otherwise (empty or a single character) nothing changes. The address starts at
0x3000. -/
theorem pass1_step_by_colon_and_length (st : Pass1) (raw : List Char) :
    (':' ∈ process_line raw →
      pass1_step st raw =
        ⟨st.symbols ++ [⟨(process_line raw).takeWhile (fun c => c != ':'), st.currentAddress⟩],
          st.currentAddress⟩) ∧
    (∀ body : List Char, process_line raw = body ++ [':'] → ':' ∉ body →
      pass1_step st raw = ⟨st.symbols ++ [⟨body, st.currentAddress⟩], st.currentAddress⟩) ∧
    (':' ∉ process_line raw → 1 < (process_line raw).length →
      pass1_step st raw = ⟨st.symbols, st.currentAddress + 2⟩) ∧
    (':' ∉ process_line raw → (process_line raw).length ≤ 1 → pass1_step st raw = st) ∧
    (pass1 []).currentAddress = 0x3000 := by
  refine ⟨fun h => ?_, fun body hb hc => ?_, fun h hl => ?_, fun h hl => ?_, rfl⟩
  · simp [pass1_step, h]
  · have hmem : ':' ∈ process_line raw := by rw [hb]; simp
    simp only [pass1_step, hmem, if_true]
    rw [hb, takeWhile_before_colon body [] hc]
  · simp [pass1_step, h, hl]
  · have hl' : ¬ (process_line raw).length > 1 := by omega
    simp [pass1_step, h, hl']

/-- C16, witness: the label line `loop:` at address 0x3004. -/
theorem pass1_step_by_colon_and_length_witness :
    process_line "loop:\n".toList = "loop".toList ++ [':'] ∧ ':' ∉ "loop".toList ∧
    pass1_step ⟨[], 0x3004⟩ "loop:\n".toList =
      ⟨([] : List Symbol) ++ [⟨"loop".toList, 0x3004⟩], 0x3004⟩ :=
  ⟨by decide, by decide,
    (pass1_step_by_colon_and_length ⟨[], 0x3004⟩ "loop:\n".toList).2.1 "loop".toList
      (by decide) (by decide)⟩

/-- C17, counterexample. The source file with the single line `x` assembles without a
fatal error; its one normalised line is not empty and is not a label, yet the image is the
origin word alone: 2 bytes, not 2 + 2 * 1. -/
theorem one_character_line_emits_nothing :
    ["x\n".toList].map process_line = ["x".toList] ∧
    (([["x\n".toList].map process_line].flatten).filter
      (fun line => decide (line ≠ [] ∧ ':' ∉ line))).length = 1 ∧
    assemble sample_encoders ["x\n".toList] = Run.done [0x30, 0x00] ∧
    ([0x30, 0x00] : List Nat).length ≠ 2 + 2 * 1 := by
  decide

/-- C17, as amended. When the two passes of `main` reach the end of the source, the bytes
written are 0x30, 0x00 followed, in source order, by two bytes per normalised line that is
longer than one character and contains no `:` (the lines of `instruction_lines`): the
high byte then the low byte of the word `parse_instruction` returned for the k-th such
line at address 0x3000 + 2k. The image has 2 + 2n bytes for n such lines and each word is
256 * first + second. -/
theorem image_is_origin_then_words (E : Encoders) (lines : List (List Char))
    (output : List Nat) (h : assemble E lines = Run.done output) :
    ∃ words : List Nat,
      words.length = (instruction_lines lines).length ∧
      output = [0x30, 0x00] ++ (words.map writeBigEndian).flatten ∧
      output.length = 2 + 2 * (instruction_lines lines).length ∧
      ∀ (k : Nat) (line : List Char) (w : Nat),
        (instruction_lines lines)[k]? = some line → words[k]? = some w →
        parse_instruction E (pass1 lines).symbols line (0x3000 + 2 * k) = Parsed.word w ∧
        w < 65536 ∧ writeBigEndian w = [w / 256, w % 256] ∧ 256 * (w / 256) + w % 256 = w := by
  unfold assemble at h
  obtain ⟨words, hlen, hres, hk⟩ := pass2_loop_done E _ lines _ _ _ h
  have horigin : writeBigEndian 0x3000 = [0x30, 0x00] := by decide
  rw [horigin] at hres
  refine ⟨words, hlen, hres, ?_, fun k line w hl hw => ?_⟩
  · rw [hres, List.length_append, length_flatten_writeBigEndian, hlen]
    rfl
  · have hp := hk k line w hl hw
    have hw16 := parse_instruction_word_lt _ _ _ _ _ hp
    exact ⟨hp, hw16, writeBigEndian_of_lt w hw16⟩

/-- C17, witness: the loop of §8 scenario 3. -/
theorem image_is_origin_then_words_witness :
    assemble sample_encoders label_at_origin = Run.done [0x30, 0x00, 0x10, 0x21, 0x0F, 0xFE] ∧
    ∃ words : List Nat,
      words.length = (instruction_lines label_at_origin).length ∧
      [0x30, 0x00, 0x10, 0x21, 0x0F, 0xFE] = [0x30, 0x00] ++ (words.map writeBigEndian).flatten ∧
      [0x30, 0x00, 0x10, 0x21, 0x0F, 0xFE].length =
        2 + 2 * (instruction_lines label_at_origin).length ∧
      ∀ (k : Nat) (line : List Char) (w : Nat),
        (instruction_lines label_at_origin)[k]? = some line → words[k]? = some w →
        parse_instruction sample_encoders (pass1 label_at_origin).symbols line (0x3000 + 2 * k) =
          Parsed.word w ∧
        w < 65536 ∧ writeBigEndian w = [w / 256, w % 256] ∧ 256 * (w / 256) + w % 256 = w :=
  ⟨by decide,
    image_is_origin_then_words sample_encoders label_at_origin
      [0x30, 0x00, 0x10, 0x21, 0x0F, 0xFE] (by decide)⟩

/-- C18: in a symbol table whose addresses are all non-negative (duplicates allowed),
`findLabelAddress` returns the address of the earliest entry with the given label, and it
returns -1 exactly when no entry has that label. -/
theorem findLabelAddress_first_wins (symbols : List Symbol) (label : List Char)
    (hnonneg : ∀ s ∈ symbols, 0 ≤ s.address) :
    (∀ (before : List Symbol) (s : Symbol) (after : List Symbol),
      symbols = before ++ s :: after → s.label = label →
      (∀ t ∈ before, t.label ≠ label) → findLabelAddress symbols label = s.address) ∧
    (findLabelAddress symbols label = -1 ↔ ∀ s ∈ symbols, s.label ≠ label) := by
  constructor
  · intro before s after hsym hs hbefore
    subst hsym
    clear hnonneg
    induction before with
    | nil => simp [findLabelAddress, hs]
    | cons t ts ih =>
      have ht : t.label ≠ label := hbefore t (List.mem_cons_self _ _)
      simp only [List.cons_append, findLabelAddress, ht, if_false]
      exact ih (fun u hu => hbefore u (List.mem_cons_of_mem _ hu))
  · induction symbols with
    | nil => simp [findLabelAddress]
    | cons t ts ih =>
      have h0 : 0 ≤ t.address := hnonneg t (List.mem_cons_self _ _)
      have ih' := ih (fun u hu => hnonneg u (List.mem_cons_of_mem _ hu))
      by_cases ht : t.label = label
      · simp only [findLabelAddress, ht, if_true]
        constructor
        · intro h
          omega
        · intro h
          exact absurd ht (h t (List.mem_cons_self _ _))
      · simp only [findLabelAddress, ht, if_false, List.mem_cons, forall_eq_or_imp, ne_eq,
          not_false_eq_true, true_and]
        exact ih'

/-- C18, witness: a table that defines `x` twice. -/
theorem findLabelAddress_first_wins_witness :
    (∀ s ∈ [(⟨"y".toList, 0x3000⟩ : Symbol), ⟨"x".toList, 0x3002⟩, ⟨"x".toList, 0x3006⟩],
      0 ≤ s.address) ∧
    findLabelAddress [⟨"y".toList, 0x3000⟩, ⟨"x".toList, 0x3002⟩, ⟨"x".toList, 0x3006⟩]
      "x".toList = 0x3002 :=
  ⟨by decide,
    (findLabelAddress_first_wins
      [⟨"y".toList, 0x3000⟩, ⟨"x".toList, 0x3002⟩, ⟨"x".toList, 0x3006⟩] "x".toList
      (by decide)).1 [⟨"y".toList, 0x3000⟩] ⟨"x".toList, 0x3002⟩ [⟨"x".toList, 0x3006⟩]
      rfl rfl (by decide)⟩

/-- C19: for instruction indices a and b with -256 ≤ a - b - 1 ≤ 255,
`calculate_offset (0x3000 + 2b) (0x3000 + 2a)` is exactly a - b - 1 (the division by 2
leaves no remainder); and a taken BRANCH whose offset field holds the low 9 bits of that
offset, executed at machine address 0x3000 + b, leaves PC at the word address 0x3000 + a
(as a 16-bit address). -/
theorem offset_counts_from_next_word (trap : x16_t → Nat → Int × x16_t) (m : x16_t) (w : Nat)
    (a b : Nat) (hlo : -256 ≤ (a : Int) - b - 1) (hhi : (a : Int) - b - 1 ≤ 255)
    (hpc : x16_pc m = 0x3000 + b)
    (hfetch : x16_memread m (x16_pc m) = w) (hop : getopcode w = OP_BR)
    (hoff : ((getbits w 0 9 : Nat) : Int) =
      calculate_offset (0x3000 + 2 * b) (0x3000 + 2 * a) % 512)
    (htaken : getbits w 9 3 = 0 ∨ getbits w 9 3 &&& x16_reg m R_COND ≠ 0) :
    calculate_offset (0x3000 + 2 * b) (0x3000 + 2 * a) = a - b - 1 ∧
    2 * calculate_offset (0x3000 + 2 * b) (0x3000 + 2 * a) =
      (0x3000 + 2 * (a : Int)) - ((0x3000 + 2 * (b : Int)) + 2) ∧
    ∃ m', execute_instruction trap m = some (0, m') ∧
      x16_pc m' = (0x3000 + a) % 65536 ∧
      (0x3000 + a < 65536 → x16_pc m' = 0x3000 + a) := by
  have hc := calculate_offset_words (a : Int) (b : Int)
  rw [hc] at hoff
  have hlt := x16_reg_lt m R_PC
  have hpc' : x16_pc m = (0x3000 + b) % 65536 := by
    unfold x16_pc at hpc
    rw [hpc] at hlt
    rw [x16_pc, hpc]
    omega
  obtain ⟨m', h1, h2⟩ := branch_to_index trap m w a b hpc' hfetch hop hoff hlo hhi htaken
  refine ⟨hc, by rw [hc]; ring, m', h1, h2, fun hlt' => ?_⟩
  rw [h2]
  omega

/-- C19, witness: the branch of `label_at_origin`, instruction 1 branching to instruction 0. -/
theorem offset_counts_from_next_word_witness :
    -256 ≤ ((0 : Nat) : Int) - (1 : Nat) - 1 ∧ ((0 : Nat) : Int) - (1 : Nat) - 1 ≤ 255 ∧
    x16_pc (sample_machine 0x3001 0x0FFE) = 0x3000 + 1 ∧
    calculate_offset (0x3000 + 2 * (1 : Nat)) (0x3000 + 2 * (0 : Nat)) = (0 : Nat) - (1 : Nat) - 1 ∧
    2 * calculate_offset (0x3000 + 2 * (1 : Nat)) (0x3000 + 2 * (0 : Nat)) =
      (0x3000 + 2 * ((0 : Nat) : Int)) - ((0x3000 + 2 * ((1 : Nat) : Int)) + 2) ∧
    ∃ m', execute_instruction sample_trap (sample_machine 0x3001 0x0FFE) = some (0, m') ∧
      x16_pc m' = (0x3000 + 0) % 65536 ∧
      (0x3000 + 0 < 65536 → x16_pc m' = 0x3000 + 0) :=
  ⟨by decide, by decide, by decide,
    offset_counts_from_next_word sample_trap (sample_machine 0x3001 0x0FFE) 0x0FFE 0 1
      (by decide) (by decide) (by decide) (by decide) (by decide) (by decide) (by decide)⟩

/-- C20: when the instruction at address pc is the register form of JUMP-TO-SUBROUTINE
(bit 11 = 0) with base register R7, `execute_instruction` returns 0 with
PC = (pc + 1) mod 2^16 and R7 = (pc + 1) mod 2^16, whatever R7 held before: the same holds
from the machine in which R7 has been given any other value. -/
theorem jsrr_r7_falls_through (trap : x16_t → Nat → Int × x16_t) (m : x16_t) (instr : Nat)
    (hfetch : x16_memread m (x16_pc m) = instr) (hop : getopcode instr = OP_JSR)
    (hform : getbit instr 11 = 0) (hbase : getbits instr 6 3 = R_R7) :
    (∃ m', execute_instruction trap m = some (0, m') ∧
      x16_pc m' = (x16_pc m + 1) % 2 ^ 16 ∧ x16_reg m' R_R7 = (x16_pc m + 1) % 2 ^ 16) ∧
    (∀ v, ∃ m', execute_instruction trap (x16_set m R_R7 v) = some (0, m') ∧
      x16_pc m' = (x16_pc m + 1) % 2 ^ 16) := by
  have key : ∀ n : x16_t, x16_memread n (x16_pc n) = instr →
      ∃ m', execute_instruction trap n = some (0, m') ∧
        x16_pc m' = (x16_pc n + 1) % 2 ^ 16 ∧ x16_reg m' R_R7 = (x16_pc n + 1) % 2 ^ 16 := by
    intro n hn
    have hp := x16_pc_fetch n
    have h78 : R_R7 ≠ R_PC := by decide
    refine ⟨_, exec_jsr trap n _ instr hn rfl hop, ?_, ?_⟩
    · rw [if_neg (by omega), hbase]
      simp [x16_pc, h78]
    · rw [if_neg (by omega), hbase]
      simp [h78, hp]
  have h78 : R_PC ≠ R_R7 := by decide
  have hpcv : ∀ v, x16_pc (x16_set m R_R7 v) = x16_pc m := by
    intro v
    simp [x16_pc, h78]
  refine ⟨key m hfetch, fun v => ?_⟩
  obtain ⟨m', h1, h2, _⟩ := key (x16_set m R_R7 v) (by rw [hpcv, x16_memread_set]; exact hfetch)
  exact ⟨m', h1, by rw [h2, hpcv]⟩

/-- C20, witness: `JSRR R7` (0x41C0) at 0x3000 on a machine whose R7 holds 15. -/
theorem jsrr_r7_falls_through_witness :
    x16_memread (sample_machine 0x3000 0x41C0) (x16_pc (sample_machine 0x3000 0x41C0)) = 0x41C0 ∧
    getopcode 0x41C0 = OP_JSR ∧ getbit 0x41C0 11 = 0 ∧ getbits 0x41C0 6 3 = R_R7 ∧
    x16_reg (sample_machine 0x3000 0x41C0) R_R7 = 15 ∧
    ∃ m', execute_instruction sample_trap (sample_machine 0x3000 0x41C0) = some (0, m') ∧
      x16_pc m' = (x16_pc (sample_machine 0x3000 0x41C0) + 1) % 2 ^ 16 ∧
      x16_reg m' R_R7 = (x16_pc (sample_machine 0x3000 0x41C0) + 1) % 2 ^ 16 :=
  ⟨by decide, by decide, by decide, by decide, by decide,
    (jsrr_r7_falls_through sample_trap (sample_machine 0x3000 0x41C0) 0x41C0 (by decide)
      (by decide) (by decide) (by decide)).1⟩

end X16
